import Mathlib

/-!
Shallow embedding of the rpng PNG codec (src/rpng.h) and proofs about its
specification claims.

Modelling conventions:
- Byte buffers are lists of naturals; a C read through an unsigned char
  pointer yields the stored byte, so well-formedness hypotheses record
  byte bounds where a proof needs them.
- The library targets a little-endian host (it byte-swaps every 32-bit
  value it moves to or from the wire).  A 4-byte store of an unsigned int
  is modelled as its four little-endian bytes; a 4-byte load is the
  little-endian recombination.
- C out-parameters are modelled as Option components of the result: none
  means the callee never wrote through the pointer.
- Loops whose termination depends on buffer contents take explicit fuel;
  every lemma about them supplies enough fuel for the buffers involved.
-/

set_option maxRecDepth 10000

abbrev Bytes := List Nat

/-- Little-endian 4-byte store of a 32-bit value (memcpy of an unsigned int
on the library's little-endian target). -/
def storeU32LE (v : Nat) : Bytes :=
  [v &&& 0xff, (v >>> 8) &&& 0xff, (v >>> 16) &&& 0xff, (v >>> 24) &&& 0xff]

/-- Little-endian 4-byte load of an unsigned int at offset i. -/
def readU32LE (buf : Bytes) (i : Nat) : Nat :=
  buf.getD i 0 ||| (buf.getD (i+1) 0 <<< 8) ||| (buf.getD (i+2) 0 <<< 16) |||
    (buf.getD (i+3) 0 <<< 24)

/-- swap_endian from rpng.h: unconditional byte swap of a 32-bit value. -/
def swap_endian (value : Nat) : Nat :=
  ((value &&& 0x000000ff) <<< 24) ||| ((value &&& 0x0000ff00) <<< 8) |||
    ((value &&& 0x00ff0000) >>> 8) ||| ((value &&& 0xff000000) >>> 24)

/-- The 256-entry CRC-32 lookup table from compute_crc32 in rpng.h. -/
def crc_table : List Nat := [
  0x00000000, 0x77073096, 0xEE0E612C, 0x990951BA, 0x076DC419, 0x706AF48F, 0xE963A535, 0x9E6495A3,
  0x0EDB8832, 0x79DCB8A4, 0xE0D5E91E, 0x97D2D988, 0x09B64C2B, 0x7EB17CBD, 0xE7B82D07, 0x90BF1D91,
  0x1DB71064, 0x6AB020F2, 0xF3B97148, 0x84BE41DE, 0x1ADAD47D, 0x6DDDE4EB, 0xF4D4B551, 0x83D385C7,
  0x136C9856, 0x646BA8C0, 0xFD62F97A, 0x8A65C9EC, 0x14015C4F, 0x63066CD9, 0xFA0F3D63, 0x8D080DF5,
  0x3B6E20C8, 0x4C69105E, 0xD56041E4, 0xA2677172, 0x3C03E4D1, 0x4B04D447, 0xD20D85FD, 0xA50AB56B,
  0x35B5A8FA, 0x42B2986C, 0xDBBBC9D6, 0xACBCF940, 0x32D86CE3, 0x45DF5C75, 0xDCD60DCF, 0xABD13D59,
  0x26D930AC, 0x51DE003A, 0xC8D75180, 0xBFD06116, 0x21B4F4B5, 0x56B3C423, 0xCFBA9599, 0xB8BDA50F,
  0x2802B89E, 0x5F058808, 0xC60CD9B2, 0xB10BE924, 0x2F6F7C87, 0x58684C11, 0xC1611DAB, 0xB6662D3D,
  0x76DC4190, 0x01DB7106, 0x98D220BC, 0xEFD5102A, 0x71B18589, 0x06B6B51F, 0x9FBFE4A5, 0xE8B8D433,
  0x7807C9A2, 0x0F00F934, 0x9609A88E, 0xE10E9818, 0x7F6A0DBB, 0x086D3D2D, 0x91646C97, 0xE6635C01,
  0x6B6B51F4, 0x1C6C6162, 0x856530D8, 0xF262004E, 0x6C0695ED, 0x1B01A57B, 0x8208F4C1, 0xF50FC457,
  0x65B0D9C6, 0x12B7E950, 0x8BBEB8EA, 0xFCB9887C, 0x62DD1DDF, 0x15DA2D49, 0x8CD37CF3, 0xFBD44C65,
  0x4DB26158, 0x3AB551CE, 0xA3BC0074, 0xD4BB30E2, 0x4ADFA541, 0x3DD895D7, 0xA4D1C46D, 0xD3D6F4FB,
  0x4369E96A, 0x346ED9FC, 0xAD678846, 0xDA60B8D0, 0x44042D73, 0x33031DE5, 0xAA0A4C5F, 0xDD0D7CC9,
  0x5005713C, 0x270241AA, 0xBE0B1010, 0xC90C2086, 0x5768B525, 0x206F85B3, 0xB966D409, 0xCE61E49F,
  0x5EDEF90E, 0x29D9C998, 0xB0D09822, 0xC7D7A8B4, 0x59B33D17, 0x2EB40D81, 0xB7BD5C3B, 0xC0BA6CAD,
  0xEDB88320, 0x9ABFB3B6, 0x03B6E20C, 0x74B1D29A, 0xEAD54739, 0x9DD277AF, 0x04DB2615, 0x73DC1683,
  0xE3630B12, 0x94643B84, 0x0D6D6A3E, 0x7A6A5AA8, 0xE40ECF0B, 0x9309FF9D, 0x0A00AE27, 0x7D079EB1,
  0xF00F9344, 0x8708A3D2, 0x1E01F268, 0x6906C2FE, 0xF762575D, 0x806567CB, 0x196C3671, 0x6E6B06E7,
  0xFED41B76, 0x89D32BE0, 0x10DA7A5A, 0x67DD4ACC, 0xF9B9DF6F, 0x8EBEEFF9, 0x17B7BE43, 0x60B08ED5,
  0xD6D6A3E8, 0xA1D1937E, 0x38D8C2C4, 0x4FDFF252, 0xD1BB67F1, 0xA6BC5767, 0x3FB506DD, 0x48B2364B,
  0xD80D2BDA, 0xAF0A1B4C, 0x36034AF6, 0x41047A60, 0xDF60EFC3, 0xA867DF55, 0x316E8EEF, 0x4669BE79,
  0xCB61B38C, 0xBC66831A, 0x256FD2A0, 0x5268E236, 0xCC0C7795, 0xBB0B4703, 0x220216B9, 0x5505262F,
  0xC5BA3BBE, 0xB2BD0B28, 0x2BB45A92, 0x5CB36A04, 0xC2D7FFA7, 0xB5D0CF31, 0x2CD99E8B, 0x5BDEAE1D,
  0x9B64C2B0, 0xEC63F226, 0x756AA39C, 0x026D930A, 0x9C0906A9, 0xEB0E363F, 0x72076785, 0x05005713,
  0x95BF4A82, 0xE2B87A14, 0x7BB12BAE, 0x0CB61B38, 0x92D28E9B, 0xE5D5BE0D, 0x7CDCEFB7, 0x0BDBDF21,
  0x86D3D2D4, 0xF1D4E242, 0x68DDB3F8, 0x1FDA836E, 0x81BE16CD, 0xF6B9265B, 0x6FB077E1, 0x18B74777,
  0x88085AE6, 0xFF0F6A70, 0x66063BCA, 0x11010B5C, 0x8F659EFF, 0xF862AE69, 0x616BFFD3, 0x166CCF45,
  0xA00AE278, 0xD70DD2EE, 0x4E048354, 0x3903B3C2, 0xA7672661, 0xD06016F7, 0x4969474D, 0x3E6E77DB,
  0xAED16A4A, 0xD9D65ADC, 0x40DF0B66, 0x37D83BF0, 0xA9BCAE53, 0xDEBB9EC5, 0x47B2CF7F, 0x30B5FFE9,
  0xBDBDF21C, 0xCABAC28A, 0x53B39330, 0x24B4A3A6, 0xBAD03605, 0xCDD70693, 0x54DE5729, 0x23D967BF,
  0xB3667A2E, 0xC4614AB8, 0x5D681B02, 0x2A6F2B94, 0xB40BBE37, 0xC30C8EA1, 0x5A05DF1B, 0x2D02EF8D]

/-- compute_crc32 from rpng.h: table-driven CRC over a byte buffer, initial
value all-ones, final one's complement. -/
def compute_crc32 (buffer : Bytes) : Nat :=
  let crc := buffer.foldl
    (fun crc b => (crc >>> 8) ^^^ crc_table.getD ((b ^^^ (crc &&& 0xff)) &&& 0xff) 0)
    0xFFFFFFFF
  crc ^^^ 0xFFFFFFFF

/-- rpng_paeth_predictor from rpng.h: exact signed integer arithmetic, final
cast of the chosen neighbour to unsigned char. -/
def rpng_paeth_predictor (a b c : Int) : Nat :=
  let p : Int := a + b - c
  let pa : Int := (p - a).natAbs
  let pb : Int := (p - b).natAbs
  let pc : Int := (p - c).natAbs
  if pa ≤ pb ∧ pa ≤ pc then ((a % 256).toNat)
  else if pb ≤ pc then ((b % 256).toNat)
  else ((c % 256).toNat)

/-- The 8-byte PNG signature constant png_signature from rpng.h. -/
def png_signature : Bytes := [0x89, 0x50, 0x4e, 0x47, 0x0d, 0x0a, 0x1a, 0x0a]

/-- FOURCC bytes of the IHDR chunk type. -/
def ihdrType : Bytes := [0x49, 0x48, 0x44, 0x52]

/-- FOURCC bytes of the IDAT chunk type. -/
def idatType : Bytes := [0x49, 0x44, 0x41, 0x54]

/-- FOURCC bytes of the IEND chunk type. -/
def iendType : Bytes := [0x49, 0x45, 0x4e, 0x44]

/-- FOURCC bytes of the cHRM chunk type. -/
def chrmType : Bytes := [0x63, 0x48, 0x52, 0x4d]

/-- FOURCC bytes of the pHYs chunk type. -/
def physType : Bytes := [0x70, 0x48, 0x59, 0x73]

/-- RPNG_MAX_CHUNKS_COUNT from rpng.h. -/
def RPNG_MAX_CHUNKS_COUNT : Nat := 64

/-- RPNG_MAX_OUTPUT_SIZE from rpng.h. -/
def RPNG_MAX_OUTPUT_SIZE : Nat := 32*1024*1024

/-- A length-n window of a buffer starting at offset off (a memcmp or memcpy
source range). -/
def byteSlice (buf : Bytes) (off n : Nat) : Bytes := (buf.drop off).take n

/-- The in-memory chunk value rpng_chunk from rpng.h (the data pointer is the
byte list, the length field is kept separately as in the C struct). -/
structure RChunk where
  clength : Nat
  ctype : Bytes
  cdata : Bytes
  ccrc : Nat
deriving Repr, DecidableEq

/-- Parsing a chunk at the head of buffer suffix p, exactly as every chunk
walker in rpng.h does: 4-byte length (byte-swapped 32-bit load), 4 type
bytes, length data bytes, byte-swapped 4-byte CRC. -/
def parseChunkAt (p : Bytes) : RChunk :=
  let sz := swap_endian (readU32LE p 0)
  { clength := sz
    ctype := byteSlice p 4 4
    cdata := byteSlice p 8 sz
    ccrc := swap_endian (readU32LE p (8 + sz)) }

/-- Wire serialization of a chunk: length, type, data, CRC, with the two
32-bit fields byte-swapped before the little-endian store as in rpng.h. -/
def chunkWireBytes (c : RChunk) : Bytes :=
  storeU32LE (swap_endian c.clength) ++ c.ctype ++ c.cdata ++
    storeU32LE (swap_endian c.ccrc)

/-- Loop body of rpng_chunk_count_from_memory: walk chunks until the IEND
FOURCC is found, counting the chunks skipped over.  Fuel bounds recursion. -/
def countGo : Nat → Bytes → Nat → Nat
  | 0, _, count => count
  | fuel+1, p, count =>
    if byteSlice p 4 4 = iendType then count
    else countGo fuel (p.drop (12 + swap_endian (readU32LE p 0))) (count + 1)

/-- rpng_chunk_count_from_memory from rpng.h. -/
def rpng_chunk_count_from_memory (buffer : Bytes) : Nat :=
  if buffer.take 8 = png_signature then
    countGo (buffer.length + 1) (buffer.drop 8) 0 + 1
  else 0

/-- Loop body of rpng_chunk_read_all_from_memory: collect chunks until IEND,
breaking once the counter reaches RPNG_MAX_CHUNKS_COUNT - 2.  Returns the
collected chunks and the buffer position where the loop stopped. -/
def readAllGo : Nat → Bytes → List RChunk → List RChunk × Bytes
  | 0, p, acc => (acc, p)
  | fuel+1, p, acc =>
    if byteSlice p 4 4 = iendType then (acc, p)
    else
      let sz := swap_endian (readU32LE p 0)
      let acc := acc ++ [parseChunkAt p]
      let p := p.drop (12 + sz)
      if RPNG_MAX_CHUNKS_COUNT - 2 ≤ acc.length then (acc, p)
      else readAllGo fuel p acc

/-- rpng_chunk_read_all_from_memory from rpng.h: after the loop it always
reads one final chunk (intended to be IEND) at the stop position. -/
def rpng_chunk_read_all_from_memory (buffer : Bytes) : Option (List RChunk) :=
  if buffer.take 8 = png_signature then
    let r := readAllGo (buffer.length + 1) (buffer.drop 8) []
    some (r.1 ++ [parseChunkAt r.2])
  else none

/-- rpng_chunk_check_all_valid from rpng.h: recompute each chunk's CRC over
type and data, byte-swap the recomputed value, and compare it with the
stored CRC field; false as soon as one chunk mismatches. -/
def rpng_chunk_check_all_valid (buffer : Bytes) : Bool :=
  match rpng_chunk_read_all_from_memory buffer with
  | none => false
  | some chunks =>
    chunks.all fun c => swap_endian (compute_crc32 (c.ctype ++ c.cdata)) == c.ccrc

/-- Loop body of rpng_chunk_remove_from_memory: copy every chunk whose
FOURCC differs from the requested type; no chunk stops the matching, so
every occurrence of the type is omitted. -/
def removeGo : Nat → Bytes → Bytes → Bytes → Bytes × Bytes
  | 0, p, _, out => (out, p)
  | fuel+1, p, chunk_type, out =>
    if byteSlice p 4 4 = iendType then (out, p)
    else
      let sz := swap_endian (readU32LE p 0)
      let out := if byteSlice p 4 4 = chunk_type then out else out ++ p.take (12 + sz)
      removeGo fuel (p.drop (12 + sz)) chunk_type out

/-- rpng_chunk_remove_from_memory from rpng.h; the second component is the
value written through the output_size parameter (always written). -/
def rpng_chunk_remove_from_memory (buffer chunk_type : Bytes) :
    Option Bytes × Nat :=
  if buffer.take 8 = png_signature then
    let r := removeGo (buffer.length + 1) (buffer.drop 8) chunk_type png_signature
    let out := r.1 ++ r.2.take 12
    (some out, out.length)
  else (none, 0)

/-- Loop body of rpng_chunk_write_from_memory: copy every chunk, and right
after copying a chunk whose FOURCC is IHDR, splice in the new chunk with a
freshly computed CRC over its type and data. -/
def writeGo : Nat → Bytes → RChunk → Bytes → Bytes × Bytes
  | 0, p, _, out => (out, p)
  | fuel+1, p, chunk, out =>
    if byteSlice p 4 4 = iendType then (out, p)
    else
      let sz := swap_endian (readU32LE p 0)
      let out := out ++ p.take (12 + sz)
      let out := if byteSlice p 4 4 = ihdrType then
          out ++ storeU32LE (swap_endian chunk.clength) ++ chunk.ctype ++
            chunk.cdata ++
            storeU32LE (swap_endian (compute_crc32 (chunk.ctype ++ chunk.cdata)))
        else out
      writeGo fuel (p.drop (12 + sz)) chunk out

/-- rpng_chunk_write_from_memory from rpng.h; second component models the
output_size out-parameter. -/
def rpng_chunk_write_from_memory (buffer : Bytes) (chunk : RChunk) :
    Option Bytes × Nat :=
  if buffer.take 8 = png_signature then
    let r := writeGo (buffer.length + 1) (buffer.drop 8) chunk png_signature
    let out := r.1 ++ r.2.take 12
    (some out, out.length)
  else (none, 0)

/-- Loop body of rpng_chunk_combine_image_data_from_memory: IDAT payloads are
appended to the idata accumulator, all other chunks are copied verbatim. -/
def combineGo : Nat → Bytes → Bytes → Bytes → Bytes × Bytes × Bytes
  | 0, p, idata, out => (idata, out, p)
  | fuel+1, p, idata, out =>
    if byteSlice p 4 4 = iendType then (idata, out, p)
    else
      let sz := swap_endian (readU32LE p 0)
      if byteSlice p 4 4 = idatType then
        combineGo fuel (p.drop (12 + sz)) (idata ++ byteSlice p 8 sz) out
      else
        combineGo fuel (p.drop (12 + sz)) idata (out ++ p.take (12 + sz))

/-- rpng_chunk_combine_image_data_from_memory from rpng.h: non-IDAT chunks
first in order, then one combined IDAT with a recomputed CRC, then IEND. -/
def rpng_chunk_combine_image_data_from_memory (buffer : Bytes) :
    Option Bytes × Nat :=
  if buffer.take 8 = png_signature then
    let r := combineGo (buffer.length + 1) (buffer.drop 8) [] []
    let idata := r.1
    let out := png_signature ++ r.2.1 ++
      storeU32LE (swap_endian idata.length) ++ idatType ++ idata ++
      storeU32LE (swap_endian (compute_crc32 (idatType ++ idata))) ++
      r.2.2.take 12
    (some out, out.length)
  else (none, 0)

/-- Inner split loop of rpng_chunk_split_image_data_from_memory: emit pieces
of exactly split_size bytes while more than split_size bytes remain, then a
final piece with the remainder; every piece gets its own CRC. -/
def splitPieces : Nat → Bytes → Nat → Bytes
  | 0, remain, _ => remain
  | fuel+1, remain, split_size =>
    if remain.length > split_size then
      let piece := remain.take split_size
      storeU32LE (swap_endian split_size) ++ idatType ++ piece ++
        storeU32LE (swap_endian (compute_crc32 (idatType ++ piece))) ++
        splitPieces fuel (remain.drop split_size) split_size
    else
      storeU32LE (swap_endian remain.length) ++ idatType ++ remain ++
        storeU32LE (swap_endian (compute_crc32 (idatType ++ remain)))

/-- Loop body of rpng_chunk_split_image_data_from_memory: IDAT chunks larger
than split_size are split into pieces, all other chunks copied verbatim. -/
def splitGo : Nat → Bytes → Nat → Bytes → Bytes × Bytes
  | 0, p, _, out => (out, p)
  | fuel+1, p, split_size, out =>
    if byteSlice p 4 4 = iendType then (out, p)
    else
      let sz := swap_endian (readU32LE p 0)
      let out :=
        if byteSlice p 4 4 = idatType ∧ sz > split_size then
          out ++ splitPieces (sz + 1) (byteSlice p 8 sz) split_size
        else out ++ p.take (12 + sz)
      splitGo fuel (p.drop (12 + sz)) split_size out

/-- rpng_chunk_split_image_data_from_memory from rpng.h. -/
def rpng_chunk_split_image_data_from_memory (buffer : Bytes) (split_size : Nat) :
    Option Bytes × Nat :=
  if buffer.take 8 = png_signature then
    let r := splitGo (buffer.length + 1) (buffer.drop 8) split_size png_signature
    let out := r.1 ++ r.2.take 12
    (some out, out.length)
  else (none, 0)

/-- The chunk value built by rpng_chunk_write_chroma in rpng.h before it is
handed to rpng_chunk_write_from_memory.  The eight parameters are the
already-truncated integers (int)(coordinate*100000) computed by the caller;
each is byte-swapped and stored as four bytes.  The FOURCC written by the
source is the pHYs one. -/
def rpng_chunk_write_chroma_chunk (white_x white_y red_x red_y green_x green_y blue_x blue_y : Nat) : RChunk :=
  { clength := 8*4
    ctype := physType
    cdata :=
      storeU32LE (swap_endian white_x) ++ storeU32LE (swap_endian white_y) ++
      storeU32LE (swap_endian red_x) ++ storeU32LE (swap_endian red_y) ++
      storeU32LE (swap_endian green_x) ++ storeU32LE (swap_endian green_y) ++
      storeU32LE (swap_endian blue_x) ++ storeU32LE (swap_endian blue_y)
    ccrc := 0 }

/-- The neighbour bytes (x, a, b, c) used by the filter loops of
rpng_save_image_to_memory for byte position p of scanline y: current byte,
byte pixel_size to the left, byte above, byte pixel_size left of the byte
above; out-of-row neighbours read as 0. -/
def filterNeighbours (data : Bytes) (pixel_size scanline y p : Nat) :
    Nat × Nat × Nat × Nat :=
  let x := data.getD (scanline*y + p) 0
  let a := if pixel_size ≤ p then data.getD (scanline*y + p - pixel_size) 0 else 0
  let b := if 0 < y then data.getD (scanline*(y-1) + p) 0 else 0
  let c := if 0 < y then
      (if pixel_size ≤ p then data.getD (scanline*(y-1) + p - pixel_size) 0 else 0)
    else 0
  (x, a, b, c)

/-- The filtered output value (as the C int out, before the unsigned char
cast) for one byte position and one filter type, matching the switch in
rpng_save_image_to_memory.  A filter index above 4 leaves out at its
previous value, which the embedding threads explicitly as prev. -/
def filterOutInt (data : Bytes) (pixel_size scanline y p filter : Nat)
    (prev : Int) : Int :=
  let n := filterNeighbours data pixel_size scanline y p
  let x : Int := n.1
  let a : Int := n.2.1
  let b : Int := n.2.2.1
  let c : Int := n.2.2.2
  match filter with
  | 0 => x
  | 1 => x - a
  | 2 => x - b
  | 3 => x - ((n.2.1 + n.2.2.1) / 2)
  | 4 => x - (rpng_paeth_predictor a b c : Nat)
  | _ => prev

/-- Absolute value of the signed char reinterpretation of the low byte of a
C int, as in abs((signed char)out). -/
def absSignedByte (out : Int) : Nat :=
  let v := (out % 256).toNat
  if 128 ≤ v then 256 - v else v

/-- One scanline pass of the filter-selection heuristic: add, for each of
the five filters, the absolute signed-byte value of its output at every
byte of scanline y to the running sums carried in from previous rows (the
C sum_value array, which rpng_save_image_to_memory never resets). -/
def filterRowSums (data : Bytes) (pixel_size scanline y : Nat)
    (sums : List Nat) : List Nat :=
  (List.range scanline).foldl
    (fun sums p =>
      (List.range 5).map fun f =>
        sums.getD f 0 + absSignedByte (filterOutInt data pixel_size scanline y p f 0))
    sums

/-- The best_filter selection of rpng_save_image_to_memory: smallest running
sum wins, strict inequality, so the lowest filter index wins ties. -/
def bestFilterOf (sums : List Nat) : Nat :=
  (((List.range 5).drop 1).foldl
    (fun best f => if sums.getD f 0 < best.2 then (f, sums.getD f 0) else best)
    (0, sums.getD 0 0)).1

/-- The filtered bytes of scanline y under a given filter (the unsigned char
casts of the C out values). -/
def filteredRowBytes (data : Bytes) (pixel_size scanline y filter : Nat) : Bytes :=
  (List.range scanline).map fun p =>
    ((filterOutInt data pixel_size scanline y p filter 0) % 256).toNat

/-- The image pre-processing loop of rpng_save_image_to_memory: per scanline,
update the running sums, pick the best filter, emit the filter byte and the
filtered scanline. -/
def filterImage (data : Bytes) (pixel_size scanline height : Nat) : Bytes :=
  ((List.range height).foldl
    (fun acc y =>
      let sums := filterRowSums data pixel_size scanline y acc.2
      let best := bestFilterOf sums
      (acc.1 ++ best :: filteredRowBytes data pixel_size scanline y best, sums))
    (([] : Bytes), [0, 0, 0, 0, 0])).1

/-- The scanline-unfilter loop of rpng_load_image_from_memory: consume
1 + scanline bytes per row of the inflated data, reconstruct each byte from
the already-unfiltered neighbours, and store its unsigned char cast.  The
C out variable keeps its previous value on an unknown filter type, threaded
here as the second fold component. -/
def unfilterImage (data_filtered : Bytes) (pixel_size scanline height : Nat) : Bytes :=
  ((List.range height).foldl
    (fun acc y =>
      let current_filter := data_filtered.getD ((1 + scanline)*y) 0
      (List.range scanline).foldl
        (fun acc p =>
          let out := acc.1
          let x := data_filtered.getD ((1 + scanline)*y + 1 + p) 0
          let a := if pixel_size ≤ p then out.getD (scanline*y + p - pixel_size) 0 else 0
          let b := if 0 < y then out.getD (scanline*(y-1) + p) 0 else 0
          let c := if 0 < y then
              (if pixel_size ≤ p then out.getD (scanline*(y-1) + p - pixel_size) 0 else 0)
            else 0
          let o : Nat :=
            match current_filter with
            | 0 => x
            | 1 => x + a
            | 2 => x + b
            | 3 => x + (a + b) / 2
            | 4 => x + rpng_paeth_predictor a b c
            | _ => acc.2
          (out ++ [o % 256], o % 256)) acc)
    (([] : Bytes), 0)).1

/-- Length-slot table lslot from sdefl_match_codes. -/
def sd_lslot : List Nat := [
  0, 0, 0, 0, 1, 2, 3, 4, 5, 6, 7, 8, 8, 9, 9, 10, 10, 11, 11, 12,
  12, 12, 12, 13, 13, 13, 13, 14, 14, 14, 14, 15, 15, 15, 15, 16, 16, 16, 16, 16,
  16, 16, 16, 17, 17, 17, 17, 17, 17, 17, 17, 18, 18, 18, 18, 18, 18, 18, 18, 19,
  19, 19, 19, 19, 19, 19, 19, 20, 20, 20, 20, 20, 20, 20, 20, 20, 20, 20, 20, 20,
  20, 20, 20, 21, 21, 21, 21, 21, 21, 21, 21, 21, 21, 21, 21, 21, 21, 21, 21, 22,
  22, 22, 22, 22, 22, 22, 22, 22, 22, 22, 22, 22, 22, 22, 22, 23, 23, 23, 23, 23,
  23, 23, 23, 23, 23, 23, 23, 23, 23, 23, 23, 24, 24, 24, 24, 24, 24, 24, 24, 24,
  24, 24, 24, 24, 24, 24, 24, 24, 24, 24, 24, 24, 24, 24, 24, 24, 24, 24, 24, 24,
  24, 24, 24, 25, 25, 25, 25, 25, 25, 25, 25, 25, 25, 25, 25, 25, 25, 25, 25, 25,
  25, 25, 25, 25, 25, 25, 25, 25, 25, 25, 25, 25, 25, 25, 25, 26, 26, 26, 26, 26,
  26, 26, 26, 26, 26, 26, 26, 26, 26, 26, 26, 26, 26, 26, 26, 26, 26, 26, 26, 26,
  26, 26, 26, 26, 26, 26, 26, 27, 27, 27, 27, 27, 27, 27, 27, 27, 27, 27, 27, 27,
  27, 27, 27, 27, 27, 27, 27, 27, 27, 27, 27, 27, 27, 27, 27, 27, 27, 27, 28]

/-- Table dxmax from sdefl_match_codes. -/
def sd_dxmax : List Nat := [
  0, 6, 12, 24, 48, 96, 192, 384, 768, 1536, 3072, 6144, 12288, 24576]

/-- Length extra-bit counts lxn from sdefl_match. -/
def sd_lxn : List Nat := [
  0, 0, 0, 0, 0, 0, 0, 0, 1, 1, 1, 1, 2, 2] ++ [2, 2, 3, 3, 3, 3,
  4, 4, 4, 4, 5, 5, 5, 5, 0]

/-- Length-slot base values lmin from sdefl_match. -/
def sd_lmin : List Nat := [
  3, 4, 5, 6, 7, 8, 9, 10, 11, 13, 15, 17, 19, 23] ++ [27, 31, 35, 43, 51, 59,
  67, 83, 99, 115, 131, 163, 195, 227, 258]

/-- Distance-slot base values dmin from sdefl_match. -/
def sd_dmin : List Nat := [
  1, 2, 3, 4, 5, 7, 9, 13, 17, 25, 33, 49, 65, 97, 129] ++ [193, 257, 385, 513, 769,
  1025, 1537, 2049, 3073, 4097, 6145, 8193, 12289, 16385, 24577]

/-- Per-level nice-match preferences pref from sdefl_compr. -/
def sd_pref : List Nat := [
  8, 10, 14, 24, 30, 48, 65, 96, 130]

/-- Pre-code order permutation perm from sdefl_flush. -/
def sd_perm : List Nat := [
  16, 17, 18, 0, 8, 7, 9, 6, 10, 5, 11, 4, 12, 3, 13, 2, 14, 1, 15]

/-- Pre-code order permutation from sinfl_decompress. -/
def si_order : List Nat := [
  16, 17, 18, 0, 8, 7, 9, 6, 10, 5, 11, 4, 12, 3, 13, 2, 14, 1, 15]

/-- Distance base table dbase from sinfl_decompress. -/
def si_dbase : List Nat := [
  1, 2, 3, 4, 5, 7, 9, 13, 17, 25, 33, 49, 65, 97] ++ [129, 193, 257, 385, 513, 769,
  1025, 1537, 2049, 3073, 4097, 6145, 8193, 12289, 16385, 24577]

/-- Distance extra-bit table dbits from sinfl_decompress. -/
def si_dbits : List Nat := [
  0, 0, 0, 0, 1, 1, 2, 2, 3, 3, 4, 4, 5, 5, 6] ++ [6, 7, 7, 8, 8,
  9, 9, 10, 10, 11, 11, 12, 12, 13, 13, 0, 0]

/-- Length base table lbase from sinfl_decompress. -/
def si_lbase : List Nat := [
  3, 4, 5, 6, 7, 8, 9, 10, 11, 13, 15, 17, 19, 23, 27] ++ [31, 35, 43, 51, 59,
  67, 83, 99, 115, 131, 163, 195, 227, 258, 0, 0]

/-- Length extra-bit table lbits from sinfl_decompress. -/
def si_lbits : List Nat := [
  0, 0, 0, 0, 0, 0, 0, 0, 1, 1, 1, 1, 2, 2, 2] ++ [2, 3, 3, 3, 3,
  4, 4, 4, 4, 5, 5, 5, 5, 0, 0, 0]

/-- Floor base-2 logarithm by structural recursion (the bit-scan-reverse
primitive of sdefl_ilog2 and sinfl_bsr); fuel 64 covers every 64-bit value. -/
def ilog2Go : Nat → Nat → Nat
  | 0, _ => 0
  | fuel+1, n => if 2 ≤ n then ilog2Go fuel (n / 2) + 1 else 0

/-- Bit scan reverse: index of the highest set bit (0 for inputs below 2). -/
def sinfl_bsr (n : Nat) : Nat := ilog2Go 64 n

/-- Bit-stream accumulator of the sdefl encoder: emitted bytes plus the
pending bits and bit count of struct sdefl. -/
structure BitsOut where
  out : Bytes
  bits : Nat
  bitcnt : Nat
deriving Repr

/-- The byte-draining while loop of sdefl_put. -/
def drainBits : Nat → BitsOut → BitsOut
  | 0, d => d
  | fuel+1, d =>
    if 8 ≤ d.bitcnt then
      drainBits fuel
        { out := d.out ++ [d.bits &&& 0xFF], bits := d.bits >>> 8, bitcnt := d.bitcnt - 8 }
    else d

/-- sdefl_put from rpng.h: append cnt bits of code to the accumulator and
drain whole bytes. -/
def sdefl_put (d : BitsOut) (code cnt : Nat) : BitsOut :=
  drainBits (d.bitcnt + cnt)
    { out := d.out, bits := d.bits ||| (code <<< d.bitcnt), bitcnt := d.bitcnt + cnt }

/-- The mutable state of struct sdefl besides the bit accumulator: hash head
and chain tables, pending literal and match sequences, symbol frequencies,
and the current Huffman code words and code lengths. -/
structure Sdefl where
  tbl : List Int
  prv : List Int
  seqs : List (Int × Nat)
  freqLit : List Nat
  freqOff : List Nat
  codeLit : List Nat
  codeOff : List Nat
  lenLit : List Nat
  lenOff : List Nat
deriving Repr

/-- The calloc-zeroed initial sdefl state handed to zsdeflate by
rpng_save_image_to_memory. -/
def sdeflInit : Sdefl :=
  { tbl := List.replicate 32768 0
    prv := List.replicate 32768 0
    seqs := []
    freqLit := List.replicate 288 0
    freqOff := List.replicate 32 0
    codeLit := List.replicate 288 0
    codeOff := List.replicate 32 0
    lenLit := List.replicate 288 0
    lenOff := List.replicate 32 0 }

/-- One-based array read used by the sdefl heap routines (the C code shifts
the array pointer down by one). -/
def get1 (A : List Nat) (i : Nat) : Nat := A.getD (i-1) 0

/-- One-based array write used by the sdefl heap routines. -/
def set1 (A : List Nat) (i : Nat) (v : Nat) : List Nat := A.set (i-1) v

/-- The sift-down loop of sdefl_heap_sub. -/
def heapSubGo : Nat → List Nat → Nat → Nat → Nat → List Nat
  | 0, A, _, p, v => set1 A p v
  | fuel+1, A, len, p, v =>
    let c := 2*p
    if c ≤ len then
      let c := if c < len ∧ get1 A c < get1 A (c+1) then c+1 else c
      if get1 A c ≤ v then set1 A p v
      else heapSubGo fuel (set1 A p (get1 A c)) len c v
    else set1 A p v

/-- sdefl_heap_sub from rpng.h. -/
def sdefl_heap_sub (A : List Nat) (len sub : Nat) : List Nat :=
  heapSubGo (len+1) A len sub (get1 A sub)

/-- sdefl_heap_array from rpng.h: heapify by sifting down subtrees from
len/2 to 1. -/
def sdefl_heap_array (A : List Nat) (len : Nat) : List Nat :=
  (List.range (len / 2)).foldl (fun A k => sdefl_heap_sub A len (len/2 - k)) A

/-- The extraction loop of sdefl_heap_sort. -/
def heapSortGo : Nat → List Nat → Nat → List Nat
  | 0, A, _ => A
  | fuel+1, A, n =>
    if 2 ≤ n then
      let tmp := get1 A n
      let A := set1 A n (get1 A 1)
      let n := n - 1
      let A := set1 A 1 tmp
      heapSortGo fuel (sdefl_heap_sub A n 1) n
    else A

/-- sdefl_heap_sort from rpng.h, sorting a standalone array of n keys. -/
def sdefl_heap_sort (A : List Nat) (n : Nat) : List Nat :=
  heapSortGo (n+1) (sdefl_heap_array A n) n

/-- SDEFL_CNT_NUM from rpng.h; the 3u/4u subterm is integer division, so the
macro rounds n+3 down to a multiple of four. -/
def SDEFL_CNT_NUM (n : Nat) : Nat := ((n + 3) / 4) * 4

/-- sdefl_sort_sym from rpng.h: counting sort of the used symbols by
min(freq, cnt_num-1), zeroing the code length of unused symbols, then a
heap sort of the top frequency bucket.  Returns the updated lens, the
updated symbol array and used_sym. -/
def sdefl_sort_sym (sym_cnt : Nat) (freqs lens sym : List Nat) :
    List Nat × List Nat × Nat :=
  let cnt_num := SDEFL_CNT_NUM sym_cnt
  let cnts := (List.range sym_cnt).foldl
    (fun cnts s =>
      let idx := if freqs.getD s 0 < cnt_num - 1 then freqs.getD s 0 else cnt_num - 1
      cnts.set idx (cnts.getD idx 0 + 1))
    (List.replicate (SDEFL_CNT_NUM 288) 0)
  let r := (List.range (cnt_num - 1)).foldl
    (fun (acc : List Nat × Nat) k =>
      let i := k + 1
      let cnt := acc.1.getD i 0
      (acc.1.set i acc.2, acc.2 + cnt))
    (cnts, 0)
  let cnts := r.1
  let used_sym := r.2
  let r2 := (List.range sym_cnt).foldl
    (fun (acc : List Nat × List Nat × List Nat) s =>
      let (cnts, lens, sym) := acc
      let freq := freqs.getD s 0
      if freq ≠ 0 then
        let idx := if freq < cnt_num - 1 then freq else cnt_num - 1
        (cnts.set idx (cnts.getD idx 0 + 1),
         lens,
         sym.set (cnts.getD idx 0) (s ||| (freq <<< 10)))
      else (cnts, lens.set s 0, sym))
    (cnts, lens, sym)
  let (cnts, lens, sym) := r2
  let start := cnts.getD (cnt_num - 2) 0
  let stop := cnts.getD (cnt_num - 1) 0
  let sym := sym.take start ++
    sdefl_heap_sort (byteSlice sym start (stop - start)) (stop - start) ++
    sym.drop stop
  (lens, sym, used_sym)

/-- The pairing loop of sdefl_build_tree (a do-while until
sym_cnt - e reaches 1). -/
def buildTreeGo : Nat → List Nat → Nat → Nat → Nat → Nat → List Nat
  | 0, A, _, _, _, _ => A
  | fuel+1, A, sym_cnt, i, b, e =>
    let pick1 := i ≠ sym_cnt ∧ (b = e ∨ A.getD i 0 >>> 10 ≤ A.getD b 0 >>> 10)
    let m := if pick1 then i else b
    let i := if pick1 then i + 1 else i
    let b := if pick1 then b else b + 1
    let pick2 := i ≠ sym_cnt ∧ (b = e ∨ A.getD i 0 >>> 10 ≤ A.getD b 0 >>> 10)
    let n := if pick2 then i else b
    let i := if pick2 then i + 1 else i
    let b := if pick2 then b else b + 1
    let freq_shift := (A.getD m 0 &&& 0xFFFFFC00) + (A.getD n 0 &&& 0xFFFFFC00)
    let A := A.set m ((A.getD m 0 &&& 1023) ||| (e <<< 10))
    let A := A.set n ((A.getD n 0 &&& 1023) ||| (e <<< 10))
    let A := A.set e ((A.getD e 0 &&& 1023) ||| freq_shift)
    let e := e + 1
    if sym_cnt - e > 1 then buildTreeGo fuel A sym_cnt i b e else A

/-- sdefl_build_tree from rpng.h. -/
def sdefl_build_tree (A : List Nat) (sym_cnt : Nat) : List Nat :=
  buildTreeGo sym_cnt A sym_cnt 0 0 0

/-- The do len-- while (!len_cnt[len]) loop of sdefl_gen_len_cnt. -/
def genLenCntFind : Nat → List Nat → Nat → Nat
  | 0, _, len => len
  | fuel+1, len_cnt, len =>
    let len := len - 1
    if len_cnt.getD len 0 ≠ 0 then len else genLenCntFind fuel len_cnt len

/-- sdefl_gen_len_cnt from rpng.h: walk internal tree nodes from root-1 down
to 0, recording depths and applying the length cap reshuffle. -/
def sdefl_gen_len_cnt (A : List Nat) (root max_code_len : Nat) :
    List Nat × List Nat :=
  let len_cnt := (List.replicate 16 0).set 1 2
  let A := A.set root (A.getD root 0 &&& 1023)
  (List.range root).foldl
    (fun (acc : List Nat × List Nat) k =>
      let (A, len_cnt) := acc
      let n := root - 1 - k
      let p := A.getD n 0 >>> 10
      let pdepth := A.getD p 0 >>> 10
      let depth := pdepth + 1
      let A := A.set n ((A.getD n 0 &&& 1023) ||| (depth <<< 10))
      let len := if max_code_len ≤ depth then genLenCntFind 16 len_cnt max_code_len else depth
      let len_cnt := len_cnt.set len (len_cnt.getD len 0 - 1)
      let len_cnt := len_cnt.set (len+1) (len_cnt.getD (len+1) 0 + 2)
      (A, len_cnt))
    (A, len_cnt)

/-- sdefl_gen_codes from rpng.h: assign code lengths to symbols from the
sorted array, then hand out canonical code words in symbol order. -/
def sdefl_gen_codes (A lens len_cnt : List Nat) (max_code_word_len sym_cnt : Nat) :
    List Nat × List Nat :=
  let r := (List.range max_code_word_len).foldl
    (fun (acc : List Nat × Nat) k =>
      let len := max_code_word_len - k
      let cnt := len_cnt.getD len 0
      ((List.range cnt).foldl
        (fun lens j => lens.set (A.getD (acc.2 + j) 0 &&& 1023) len) acc.1,
       acc.2 + cnt))
    (lens, 0)
  let lens := r.1
  let nxt := (List.range (max_code_word_len - 1)).foldl
    (fun nxt k =>
      let len := k + 2
      nxt.set len ((nxt.getD (len-1) 0 + len_cnt.getD (len-1) 0) <<< 1))
    ((List.replicate 16 0).set 0 0 |>.set 1 0)
  let r2 := (List.range sym_cnt).foldl
    (fun (acc : List Nat × List Nat) sym =>
      let (A, nxt) := acc
      let l := lens.getD sym 0
      (A.set sym (nxt.getD l 0), nxt.set l (nxt.getD l 0 + 1)))
    (A, nxt)
  (r2.1, lens)

/-- sdefl_rev from rpng.h: 16-bit bit reversal then truncation to n bits. -/
def sdefl_rev (c n : Nat) : Nat :=
  let c := ((c &&& 0x5555) <<< 1) ||| ((c &&& 0xAAAA) >>> 1)
  let c := ((c &&& 0x3333) <<< 2) ||| ((c &&& 0xCCCC) >>> 2)
  let c := ((c &&& 0x0F0F) <<< 4) ||| ((c &&& 0xF0F0) >>> 4)
  let c := ((c &&& 0x00FF) <<< 8) ||| ((c &&& 0xFF00) >>> 8)
  c >>> (16 - n)

/-- sdefl_huff from rpng.h: sort symbols, handle the zero- and one-symbol
special cases, otherwise build the tree, cap the lengths and emit
bit-reversed canonical codes.  Returns updated (lens, codes). -/
def sdefl_huff (lens codes freqs : List Nat) (num_syms max_code_len : Nat) :
    List Nat × List Nat :=
  let r := sdefl_sort_sym num_syms freqs lens codes
  let (lens, A, used_syms) := r
  if used_syms = 0 then (lens, A)
  else if used_syms = 1 then
    let s := A.getD 0 0 &&& 1023
    let i := if s ≠ 0 then s else 1
    ((lens.set 0 1).set i 1, (A.set 0 0).set i 1)
  else
    let A := sdefl_build_tree A used_syms
    let r2 := sdefl_gen_len_cnt A (used_syms - 2) max_code_len
    let r3 := sdefl_gen_codes r2.1 lens r2.2 max_code_len num_syms
    let (A, lens) := r3
    let A := (List.range num_syms).foldl
      (fun A c => A.set c (sdefl_rev (A.getD c 0) (lens.getD c 0))) A
    (lens, A)

/-- Downward scan helper shared by the cnt->lit / cnt->off loops of
sdefl_precode and the item_cnt loop of sdefl_flush: walk l downward while
l > stop, stopping at the first l whose probe g (l-1) is nonzero. -/
def scanTopBy : Nat → (Nat → Nat) → Nat → Nat → Nat
  | 0, _, l, _ => l
  | fuel+1, g, l, stop =>
    if l > stop then
      (if g (l-1) ≠ 0 then l else scanTopBy fuel g (l-1) stop)
    else l

/-- Run-length scan of sdefl_precode: first index past run_start where the
length value changes or the table ends (a do-while, so at least one step). -/
def precodeRunEnd : Nat → List Nat → Nat → Nat → Nat → Nat
  | 0, _, _, _, run_end => run_end
  | fuel+1, lens, total, len, run_end =>
    if run_end ≠ total ∧ lens.getD run_end 0 = len then
      precodeRunEnd fuel lens total len (run_end + 1)
    else run_end

/-- Frequencies and item stream accumulated by sdefl_precode. -/
structure PrecodeSt where
  freqs : List Nat
  items : List Nat
deriving Repr

/-- The while-loop of sdefl_precode emitting long zero runs with symbol 18. -/
def precodeZero18 : Nat → PrecodeSt → Nat → Nat → PrecodeSt × Nat
  | 0, st, run_start, _ => (st, run_start)
  | fuel+1, st, run_start, run_end =>
    if 11 ≤ run_end - run_start then
      let n := run_end - run_start - 11
      let xbits := if n < 0x7f then n else 0x7f
      precodeZero18 fuel
        { freqs := st.freqs.set 18 (st.freqs.getD 18 0 + 1),
          items := st.items ++ [18 ||| (xbits <<< 5)] }
        (run_start + 11 + xbits) run_end
    else (st, run_start)

/-- The do-while of sdefl_precode emitting repeat runs with symbol 16. -/
def precodeRep16 : Nat → PrecodeSt → Nat → Nat → PrecodeSt × Nat
  | 0, st, run_start, _ => (st, run_start)
  | fuel+1, st, run_start, run_end =>
    let xbits := if run_end - run_start - 3 < 3 then run_end - run_start - 3 else 3
    let st := { freqs := st.freqs.set 16 (st.freqs.getD 16 0 + 1),
                items := st.items ++ [16 ||| (xbits <<< 5)] }
    let run_start := run_start + 3 + xbits
    if 3 ≤ run_end - run_start then precodeRep16 fuel st run_start run_end
    else (st, run_start)

/-- The trailing literal-emission while-loop of sdefl_precode. -/
def precodeLits : Nat → PrecodeSt → Nat → Nat → Nat → PrecodeSt
  | 0, st, _, _, _ => st
  | fuel+1, st, len, run_start, run_end =>
    if run_start ≠ run_end then
      precodeLits fuel
        { freqs := st.freqs.set len (st.freqs.getD len 0 + 1),
          items := st.items ++ [len] }
        len (run_start + 1) run_end
    else st

/-- Outer do-while of sdefl_precode over the concatenated length table. -/
def precodeGo : Nat → List Nat → Nat → PrecodeSt → Nat → PrecodeSt
  | 0, _, _, st, _ => st
  | fuel+1, lens, total, st, run_start =>
    let len := lens.getD run_start 0
    let run_end := precodeRunEnd (total + 1) lens total len (run_start + 1)
    let r :=
      if len = 0 then
        let r18 := precodeZero18 (total + 1) st run_start run_end
        let (st, run_start) := r18
        if 3 ≤ run_end - run_start then
          let n := run_end - run_start - 3
          let xbits := if n < 0x7 then n else 0x7
          ({ freqs := st.freqs.set 17 (st.freqs.getD 17 0 + 1),
             items := st.items ++ [17 ||| (xbits <<< 5)] }, run_start + 3 + xbits)
        else (st, run_start)
      else if 4 ≤ run_end - run_start then
        let st := { freqs := st.freqs.set len (st.freqs.getD len 0 + 1),
                    items := st.items ++ [len] }
        precodeRep16 (total + 1) st (run_start + 1) run_end
      else (st, run_start)
    let st := precodeLits (total + 1) r.1 len r.2 run_end
    if run_end ≠ total then precodeGo fuel lens total st run_end else st

/-- sdefl_precode from rpng.h.  Returns (cnt.lit, cnt.off, pre-code symbol
frequencies, item stream); cnt.items is the length of the item stream. -/
def sdefl_precode (litlen offlen : List Nat) :
    Nat × Nat × List Nat × List Nat :=
  let clit := scanTopBy 289 (fun j => litlen.getD j 0) 288 257
  let coff := scanTopBy 33 (fun j => offlen.getD j 0) 32 1
  let total := clit + coff
  let lens := litlen.take clit ++ offlen.take coff
  let st := precodeGo (total + 1) lens total ⟨List.replicate 19 0, []⟩ 0
  (clit, coff, st.freqs, st.items)

/-- sdefl_ilog2 from rpng.h (floor of the base-2 logarithm, 0 at 0). -/
def sdefl_ilog2 (n : Nat) : Nat := if n = 0 then 0 else sinfl_bsr n

/-- sdefl_npow2 from rpng.h (next power of two). -/
def sdefl_npow2 (n : Nat) : Nat := 1 <<< (sdefl_ilog2 (n - 1) + 1)

/-- sdefl_match_codes from rpng.h: length slot, literal/length code,
distance code and distance extra-bit count for a match. -/
def sdefl_match_codes (dist len : Nat) : Nat × Nat × Nat × Nat :=
  let ls := sd_lslot.getD len 0
  let lc := 257 + ls
  let dx := sdefl_ilog2 (sdefl_npow2 dist >>> 2)
  let dc := if dx ≠ 0 then ((dx + 1) <<< 1) + (if dist > sd_dxmax.getD dx 0 then 1 else 0)
            else dist - 1
  (ls, lc, dc, dx)

/-- sdefl_match from rpng.h: emit the four code/extra-bit fields of one
LZ77 match using the current Huffman tables of s. -/
def sdefl_match_emit (d : BitsOut) (s : Sdefl) (dist len : Nat) : BitsOut :=
  let mc := sdefl_match_codes dist len
  let d := sdefl_put d (s.codeLit.getD mc.2.1 0) (s.lenLit.getD mc.2.1 0)
  let d := sdefl_put d (len - sd_lmin.getD mc.1 0) (sd_lxn.getD mc.1 0)
  let d := sdefl_put d (s.codeOff.getD mc.2.2.1 0) (s.lenOff.getD mc.2.2.1 0)
  sdefl_put d (dist - sd_dmin.getD mc.2.2.1 0) mc.2.2.2

/-- sdefl_reg_match from rpng.h: tally the literal/length and distance
symbol frequencies of one match. -/
def sdefl_reg_match (s : Sdefl) (off len : Nat) : Sdefl :=
  let mc := sdefl_match_codes off len
  { s with freqLit := s.freqLit.set mc.2.1 (s.freqLit.getD mc.2.1 0 + 1)
           freqOff := s.freqOff.set mc.2.2.1 (s.freqOff.getD mc.2.2.1 0 + 1) }

/-- sdefl_seq from rpng.h: append one literal-run or match sequence. -/
def sdefl_seq (s : Sdefl) (off : Int) (len : Nat) : Sdefl :=
  { s with seqs := s.seqs ++ [(off, len)] }

/-- sdefl_flush from rpng.h: build the per-block Huffman tables, emit the
dynamic block header, the pre-coded length tables, the recorded sequences
and the end-of-block code, then reset frequencies and sequences. -/
def sdefl_flush (d : BitsOut) (s : Sdefl) (is_last : Bool) (input : Bytes) :
    BitsOut × Sdefl :=
  let freqLit := s.freqLit.set 256 (s.freqLit.getD 256 0 + 1)
  let rl := sdefl_huff s.lenLit s.codeLit freqLit 288 14
  let ro := sdefl_huff s.lenOff s.codeOff s.freqOff 32 15
  let s := { s with freqLit := freqLit,
                    lenLit := rl.1, codeLit := rl.2,
                    lenOff := ro.1, codeOff := ro.2 }
  let pc := sdefl_precode s.lenLit s.lenOff
  let (clit, coff, pfreqs, items) := pc
  let rp := sdefl_huff (List.replicate 19 0) (List.replicate 19 0) pfreqs 19 7
  let (plens, pcodes) := rp
  let item_cnt := scanTopBy 20 (fun j => plens.getD (sd_perm.getD j 0) 0) 19 4
  let d := sdefl_put d (if is_last then 1 else 0) 1
  let d := sdefl_put d 2 2
  let d := sdefl_put d (clit - 257) 5
  let d := sdefl_put d (coff - 1) 5
  let d := sdefl_put d (item_cnt - 4) 4
  let d := (List.range item_cnt).foldl
    (fun d i => sdefl_put d (plens.getD (sd_perm.getD i 0) 0) 3) d
  let d := items.foldl
    (fun d item =>
      let sym := item &&& 0x1F
      let d := sdefl_put d (pcodes.getD sym 0) (plens.getD sym 0)
      if sym < 16 then d
      else if sym = 16 then sdefl_put d (item >>> 5) 2
      else if sym = 17 then sdefl_put d (item >>> 5) 3
      else sdefl_put d (item >>> 5) 7) d
  let d := s.seqs.foldl
    (fun d seq =>
      if 0 ≤ seq.1 then
        (List.range seq.2).foldl
          (fun d j =>
            let c := input.getD (seq.1.toNat + j) 0
            sdefl_put d (s.codeLit.getD c 0) (s.lenLit.getD c 0)) d
      else sdefl_match_emit d s (-seq.1).toNat seq.2) d
  let d := sdefl_put d (s.codeLit.getD 256 0) (s.lenLit.getD 256 0)
  (d, { s with freqLit := List.replicate 288 0, freqOff := List.replicate 32 0,
               seqs := [] })

/-- sdefl_uload32 from rpng.h: little-endian 4-byte load from the input. -/
def sdefl_uload32 (input : Bytes) (p : Nat) : Nat :=
  input.getD p 0 ||| (input.getD (p+1) 0 <<< 8) ||| (input.getD (p+2) 0 <<< 16) |||
    (input.getD (p+3) 0 <<< 24)

/-- sdefl_hash32 from rpng.h. -/
def sdefl_hash32 (input : Bytes) (p : Nat) : Nat :=
  ((sdefl_uload32 input p * 0x9E377989) % 4294967296) >>> (32 - 15)

/-- The match-extension loop of sdefl_fnd. -/
def matchLenGo : Nat → Bytes → Nat → Nat → Nat → Nat → Nat
  | 0, _, _, _, n, _ => n
  | fuel+1, input, i, p, n, max_match =>
    if n < max_match ∧ input.getD (i+n) 0 = input.getD (p+n) 0 then
      matchLenGo fuel input i p (n+1) max_match
    else n

/-- The hash-chain walk of sdefl_fnd. -/
def sdeflFndGo : Nat → Sdefl → Bytes → Nat → Nat → Nat → Int → Int →
    Nat × Nat → Nat × Nat
  | 0, _, _, _, _, _, _, _, m => m
  | fuel+1, s, input, chain_len, max_match, p, limit, i, m =>
    if i ≤ limit then m
    else
      let iN := i.toNat
      let hit := input.getD (iN + m.2) 0 = input.getD (p + m.2) 0 ∧
                 sdefl_uload32 input iN = sdefl_uload32 input p
      let n := if hit then matchLenGo 259 input iN p 4 max_match else 0
      let better := hit ∧ n > m.2
      let m := if better then (p - iN, n) else m
      if better ∧ n = max_match then m
      else
        let chain_len := chain_len - 1
        if chain_len = 0 then m
        else sdeflFndGo fuel s input chain_len max_match p limit
          (s.prv.getD (iN % 32768) 0) m

/-- sdefl_fnd from rpng.h: walk the hash chain for position p, returning the
best (offset, length) found, (0, 0) when none. -/
def sdefl_fnd (s : Sdefl) (input : Bytes) (chain_len max_match p : Nat) :
    Nat × Nat :=
  let i := s.tbl.getD (sdefl_hash32 input p) 0
  let limit : Int := if (p : Int) - 32768 < -1 then -1 else (p : Int) - 32768
  sdeflFndGo (chain_len + 1) s input chain_len max_match p limit i (0, 0)

/-- Running state of the position loop of sdefl_compr. -/
structure ComprSt where
  s : Sdefl
  i : Nat
  litlen : Nat

/-- The hash-insertion while (run-- > 0) loop of sdefl_compr. -/
def comprHashRun (s : Sdefl) (input : Bytes) (i inc run : Nat) : Sdefl :=
  (List.range run).foldl
    (fun s k =>
      let pos := i + k*inc
      let h := sdefl_hash32 input pos
      { s with prv := s.prv.set (pos % 32768) (s.tbl.getD h 0),
               tbl := s.tbl.set h (pos : Int) })
    s

/-- The per-position while (i < blk_end) loop of sdefl_compr: greedy/lazy
matching, sequence recording, frequency tallies and hash updates. -/
def sdeflComprPos : Nat → Bytes → Nat → Nat → Nat → ComprSt → ComprSt
  | 0, _, _, _, _, st => st
  | fuel+1, input, in_len, lvl, blk_end, st =>
    if st.i < blk_end then
      let i := st.i
      let max_chain := if lvl < 8 then 1 <<< (lvl + 1) else 1 <<< 13
      let max_match := if in_len - i > 258 then 258 else in_len - i
      let nice_match := if sd_pref.getD lvl 0 < max_match then sd_pref.getD lvl 0 else max_match
      let m0 := if max_match > 4 then sdefl_fnd st.s input max_chain max_match i else (0, 0)
      let m :=
        if 5 ≤ lvl ∧ 4 ≤ m0.2 ∧ m0.2 < nice_match then
          let m2 := sdefl_fnd st.s input max_chain (m0.2 + 1) (i + 1)
          if m2.2 > m0.2 then (m0.1, 0) else m0
        else m0
      let r :=
        if 4 ≤ m.2 then
          let s := if st.litlen ≠ 0 then sdefl_seq st.s ((i - st.litlen : Nat) : Int) st.litlen else st.s
          let s := sdefl_seq s (-(m.1 : Int)) m.2
          let s := sdefl_reg_match s m.1 m.2
          if lvl < 2 ∧ nice_match ≤ m.2 then (s, 0, 1, m.2) else (s, 0, m.2, 1)
        else
          let b := input.getD i 0
          let freqLit := st.s.freqLit.set b (st.s.freqLit.getD b 0 + 1)
          ({ st.s with freqLit := freqLit }, st.litlen + 1, 1, 1)
      let (s, litlen, run, inc) := r
      let run_inc := run * inc
      let s :=
        if in_len - (i + run_inc) > 4 then comprHashRun s input i inc run
        else s
      sdeflComprPos fuel input in_len lvl blk_end { s := s, i := i + run_inc, litlen := litlen }
    else st

/-- The per-block do-while of sdefl_compr. -/
def sdeflComprBlk : Nat → BitsOut → Bytes → Nat → Nat → ComprSt → BitsOut × Sdefl
  | 0, d, _, _, _, st => (d, st.s)
  | fuel+1, d, input, in_len, lvl, st =>
    let blk_end := if st.i + 262144 < in_len then st.i + 262144 else in_len
    let st := sdeflComprPos (blk_end - st.i + 1) input in_len lvl blk_end st
    let st :=
      if st.litlen ≠ 0 then
        { st with s := sdefl_seq st.s ((st.i - st.litlen : Nat) : Int) st.litlen, litlen := 0 }
      else st
    let r := sdefl_flush d st.s (blk_end = in_len) input
    if st.i < in_len then
      sdeflComprBlk fuel r.1 input in_len lvl { st with s := r.2 }
    else r

/-- sdefl_compr from rpng.h: reset the hash head table, compress block by
block, and pad the final byte. -/
def sdefl_compr (d : BitsOut) (s : Sdefl) (input : Bytes) (lvl : Nat) : BitsOut × Sdefl :=
  let s := { s with tbl := List.replicate 32768 (-1 : Int) }
  let r := sdeflComprBlk (input.length / 262144 + 2) d input input.length lvl
    { s := s, i := 0, litlen := 0 }
  let d := r.1
  let d := if d.bitcnt ≠ 0 then sdefl_put d 0 (8 - d.bitcnt) else d
  (d, r.2)

/-- One reduction block of sdefl_adler32. -/
def adlerGo : Nat → Nat → Nat → Bytes → Nat → Nat
  | 0, s1, s2, _, _ => (s2 <<< 16) + s1
  | fuel+1, s1, s2, rem, blk_len =>
    if rem.length = 0 then (s2 <<< 16) + s1
    else
      let chunk := rem.take blk_len
      let r := chunk.foldl (fun (p : Nat × Nat) b => (p.1 + b, p.2 + p.1 + b)) (s1, s2)
      adlerGo fuel (r.1 % 65521) (r.2 % 65521) (rem.drop blk_len) 5552

/-- sdefl_adler32 from rpng.h. -/
def sdefl_adler32 (adler : Nat) (input : Bytes) : Nat :=
  adlerGo (input.length / 5552 + 2) (adler &&& 0xffff) (adler >>> 16) input
    (input.length % 5552)

/-- zsdeflate from rpng.h: zlib header, deflate stream, byte padding and the
big-endian Adler-32 trailer.  Returns the emitted bytes. -/
def zsdeflate (s : Sdefl) (input : Bytes) (lvl : Nat) : Bytes :=
  let d : BitsOut := { out := [], bits := 0, bitcnt := 0 }
  let d := sdefl_put d 0x78 8
  let d := sdefl_put d 0x01 8
  let r := sdefl_compr d s input lvl
  let a := sdefl_adler32 1 input
  let d := ((List.range 4).foldl
    (fun (acc : BitsOut × Nat) _ =>
      (sdefl_put acc.1 ((acc.2 >>> 24) &&& 0xFF) 8, (acc.2 <<< 8) &&& 0xFFFFFFFF))
    (r.1, a)).1
  d.out

/-- Bit-reader state of struct sinfl: input cursor for refills, 64-bit bit
buffer, bit count, and the two decode tables. -/
structure Sinfl where
  bitptr : Nat
  bitbuf : Nat
  bitcnt : Nat
  lits : List Nat
  dsts : List Nat

/-- sinfl_read64 from rpng.h: little-endian 8-byte load (reads past the end
of the buffer yield 0 in the model). -/
def sinfl_read64 (input : Bytes) (p : Nat) : Nat :=
  input.getD p 0 ||| (input.getD (p+1) 0 <<< 8) ||| (input.getD (p+2) 0 <<< 16) |||
    (input.getD (p+3) 0 <<< 24) ||| (input.getD (p+4) 0 <<< 32) |||
    (input.getD (p+5) 0 <<< 40) ||| (input.getD (p+6) 0 <<< 48) |||
    (input.getD (p+7) 0 <<< 56)

/-- sinfl_refill from rpng.h; the 64-bit shift wraps as in C. -/
def sinfl_refill (input : Bytes) (s : Sinfl) : Sinfl :=
  { s with
    bitbuf := s.bitbuf ||| ((sinfl_read64 input s.bitptr <<< s.bitcnt) % 18446744073709551616)
    bitptr := s.bitptr + ((63 - s.bitcnt) >>> 3)
    bitcnt := s.bitcnt ||| 56 }

/-- sinfl_peek from rpng.h. -/
def sinfl_peek (s : Sinfl) (cnt : Nat) : Nat :=
  s.bitbuf &&& ((1 <<< cnt) - 1)

/-- sinfl_consume from rpng.h. -/
def sinfl_consume (s : Sinfl) (cnt : Nat) : Sinfl :=
  { s with bitbuf := s.bitbuf >>> cnt, bitcnt := s.bitcnt - cnt }

/-- sinfl__get from rpng.h: peek then consume. -/
def sinflGet0 (s : Sinfl) (cnt : Nat) : Nat × Sinfl :=
  (sinfl_peek s cnt, sinfl_consume s cnt)

/-- sinfl_get from rpng.h: refill then read. -/
def sinfl_get (input : Bytes) (s : Sinfl) (cnt : Nat) : Nat × Sinfl :=
  sinflGet0 (sinfl_refill input s) cnt

/-- Table-construction cursor struct sinfl_gen. -/
structure SinflGen where
  len : Nat
  cnt : Nat
  word : Nat
  sortedIdx : Nat

/-- The memcpy that doubles the filled prefix of a decode table. -/
def tblDup (tbl : List Nat) (tbl_end : Nat) : List Nat :=
  tbl.take tbl_end ++ tbl.take tbl_end ++ tbl.drop (2*tbl_end)

/-- The initial while loop of sinfl_build_tbl: advance len to the first
nonzero code-length count. -/
def findFirstLen : Nat → List Nat → Nat → Nat
  | 0, _, len => len
  | fuel+1, cntTbl, len =>
    if cntTbl.getD len 0 = 0 then findFirstLen fuel cntTbl (len+1) else len

/-- The trailing do-while of sinfl_build_tbl: advance len (duplicating the
table while len stays within the primary bits) until a length with codes. -/
def buildTblSkip : Nat → List Nat → List Nat → Nat → SinflGen → Nat →
    List Nat × SinflGen × Nat
  | 0, tbl, _, _, gen, tbl_end => (tbl, gen, tbl_end)
  | fuel+1, tbl, cntTbl, tbl_bits, gen, tbl_end =>
    let len := gen.len + 1
    let tbl := if len ≤ tbl_bits then tblDup tbl tbl_end else tbl
    let tbl_end := if len ≤ tbl_bits then tbl_end * 2 else tbl_end
    let cnt := cntTbl.getD len 0
    if cnt = 0 then buildTblSkip fuel tbl cntTbl tbl_bits { gen with len := len } tbl_end
    else (tbl, { gen with len := len, cnt := cnt }, tbl_end)

/-- The main loop of sinfl_build_tbl: place one code per step in
bit-reversed word order, duplicating the table on each length increase;
returns true when the primary table is complete. -/
def buildTblGo : Nat → List Nat → List Nat → List Nat → Nat → SinflGen → Nat →
    Bool × List Nat × SinflGen × Nat
  | 0, tbl, _, _, _, gen, tbl_end => (false, tbl, gen, tbl_end)
  | fuel+1, tbl, sorted, cntTbl, tbl_bits, gen, tbl_end =>
    if gen.len ≤ tbl_bits then
      let tbl := tbl.set gen.word ((sorted.getD gen.sortedIdx 0 <<< 16) ||| gen.len)
      let gen := { gen with sortedIdx := gen.sortedIdx + 1 }
      if gen.word = tbl_end - 1 then
        let r := (List.range (tbl_bits - gen.len)).foldl
          (fun (acc : List Nat × Nat) _ => (tblDup acc.1 acc.2, acc.2 * 2))
          (tbl, tbl_end)
        (true, r.1, { gen with len := tbl_bits }, r.2)
      else
        let bit := 1 <<< sinfl_bsr (gen.word ^^^ (tbl_end - 1))
        let word := (gen.word &&& (bit - 1)) ||| bit
        let cnt := gen.cnt - 1
        if cnt ≠ 0 then
          buildTblGo fuel tbl sorted cntTbl tbl_bits
            { gen with word := word, cnt := cnt } tbl_end
        else
          let r := buildTblSkip 17 tbl cntTbl tbl_bits
            { gen with word := word, cnt := 0 } tbl_end
          buildTblGo fuel r.1 sorted cntTbl tbl_bits r.2.1 r.2.2
    else (false, tbl, gen, tbl_end)

/-- sinfl_build_tbl from rpng.h. -/
def sinfl_build_tbl (tbl : List Nat) (sorted cntTbl : List Nat) (tbl_bits : Nat)
    (gen : SinflGen) : Bool × List Nat × SinflGen × Nat :=
  let len := findFirstLen 17 cntTbl gen.len
  let gen := { gen with len := len, cnt := cntTbl.getD len 0 }
  buildTblGo 4096 tbl sorted cntTbl tbl_bits gen (1 <<< len)

/-- The used < (1 << sub_bits) widening loop of sinfl_build_subtbl. -/
def subtblBits : Nat → List Nat → Nat → Nat → Nat → Nat × Nat
  | 0, _, _, sub_bits, used => (sub_bits, used)
  | fuel+1, cntTbl, tbl_bits, sub_bits, used =>
    if used < (1 <<< sub_bits) then
      subtblBits fuel cntTbl tbl_bits (sub_bits + 1)
        ((used <<< 1) + cntTbl.getD (tbl_bits + sub_bits + 1) 0)
    else (sub_bits, used)

/-- The strided fill do-while of sinfl_build_subtbl. -/
def subtblFill : Nat → List Nat → Nat → Nat → Nat → Nat → List Nat
  | 0, tbl, _, _, _, _ => tbl
  | fuel+1, tbl, entry, i, stride, tbl_end =>
    let tbl := tbl.set i entry
    let i := i + stride
    if i < tbl_end then subtblFill fuel tbl entry i stride tbl_end else tbl

/-- The while (!gen->cnt) advance at the bottom of sinfl_build_subtbl. -/
def subtblNextLen : Nat → List Nat → Nat → Nat → Nat × Nat
  | 0, _, len, cnt => (len, cnt)
  | fuel+1, cntTbl, len, cnt =>
    if cnt = 0 then subtblNextLen fuel cntTbl (len + 1) (cntTbl.getD (len + 1) 0)
    else (len, cnt)

/-- The main loop of sinfl_build_subtbl: start a fresh sub-table whenever
the primary prefix changes, then fill the entries of one code. -/
def buildSubtblGo : Nat → List Nat → List Nat → List Nat → Nat → SinflGen →
    Nat → Nat → Nat → Int → List Nat
  | 0, tbl, _, _, _, _, _, _, _, _ => tbl
  | fuel+1, tbl, sorted, cntTbl, tbl_bits, gen, tbl_end, sub_bits, sub_start, sub_prefix =>
    let fresh := ((gen.word &&& ((1 <<< tbl_bits) - 1)) : Int) ≠ sub_prefix
    let sub_prefix := if fresh then ((gen.word &&& ((1 <<< tbl_bits) - 1)) : Int) else sub_prefix
    let sub_start := if fresh then tbl_end else sub_start
    let r := if fresh then
        subtblBits 17 cntTbl tbl_bits (gen.len - tbl_bits) gen.cnt
      else (sub_bits, 0)
    let sub_bits := if fresh then r.1 else sub_bits
    let tbl_end := if fresh then sub_start + (1 <<< sub_bits) else tbl_end
    let tbl := if fresh then
        tbl.set sub_prefix.toNat ((sub_start <<< 16) ||| 0x10 ||| (sub_bits &&& 0xf))
      else tbl
    let entry := (sorted.getD gen.sortedIdx 0 <<< 16) ||| ((gen.len - tbl_bits) &&& 0xf)
    let gen := { gen with sortedIdx := gen.sortedIdx + 1 }
    let i := sub_start + (gen.word >>> tbl_bits)
    let stride := 1 <<< (gen.len - tbl_bits)
    let tbl := subtblFill (tbl_end + 1) tbl entry i stride tbl_end
    if gen.word = (1 <<< gen.len) - 1 then tbl
    else
      let bit := 1 <<< sinfl_bsr (gen.word ^^^ ((1 <<< gen.len) - 1))
      let word := (gen.word &&& (bit - 1)) ||| bit
      let r2 := subtblNextLen 17 cntTbl gen.len (gen.cnt - 1)
      buildSubtblGo fuel tbl sorted cntTbl tbl_bits
        { gen with word := word, len := r2.1, cnt := r2.2 } tbl_end sub_bits sub_start sub_prefix

/-- sinfl_build from rpng.h: histogram the code lengths, sort symbols by
length, and build the primary table plus any sub-tables; an incomplete code
fills the primary table with symbol 0 at length 1. -/
def sinfl_build (tbl : List Nat) (lens : List Nat) (tbl_bits maxlen symcnt : Nat) :
    List Nat :=
  let cnt := (List.range symcnt).foldl
    (fun cnt i =>
      let l := lens.getD i 0
      cnt.set l (cnt.getD l 0 + 1))
    (List.replicate 16 0)
  let r := (List.range (maxlen - 1)).foldl
    (fun (acc : List Nat × Nat) k =>
      let i := k + 1
      (acc.1.set (i+1) (acc.1.getD i 0 + cnt.getD i 0),
       (acc.2 <<< 1) + cnt.getD i 0))
    ((List.replicate 16 0).set 1 (cnt.getD 0 0), 0)
  let off := r.1
  let used := (r.2 <<< 1) + cnt.getD maxlen 0
  let r2 := (List.range symcnt).foldl
    (fun (acc : List Nat × List Nat) i =>
      let l := lens.getD i 0
      (acc.1.set (acc.2.getD l 0) i, acc.2.set l (acc.2.getD l 0 + 1)))
    (List.replicate 288 0, off)
  let sorted := r2.1
  let sortedStart := r2.2.getD 0 0
  if used < (1 <<< maxlen) then
    (List.range (1 <<< tbl_bits)).foldl (fun tbl i => tbl.set i 1) tbl
  else
    let gen : SinflGen := { len := 1, cnt := 0, word := 0, sortedIdx := sortedStart }
    let rb := sinfl_build_tbl tbl sorted cnt tbl_bits gen
    if rb.1 then rb.2.1
    else buildSubtblGo 4096 rb.2.1 sorted cnt tbl_bits rb.2.2.1 (1 <<< tbl_bits) 0 0 (-1)

/-- sinfl_decode from rpng.h: primary table lookup with optional sub-table
indirection. -/
def sinfl_decode (s : Sinfl) (tbl : List Nat) (bit_len : Nat) : Nat × Sinfl :=
  let idx := sinfl_peek s bit_len
  let key := tbl.getD idx 0
  if key &&& 0x10 ≠ 0 then
    let len := key &&& 0x0f
    let s := sinfl_consume s bit_len
    let idx := sinfl_peek s len
    let key := tbl.getD (((key >>> 16) &&& 0xffff) + idx) 0
    let s := sinfl_consume s (key &&& 0x0f)
    (((key >>> 16) &&& 0x0fff), s)
  else
    let s := sinfl_consume s (key &&& 0x0f)
    (((key >>> 16) &&& 0x0fff), s)

/-- Code lengths of the fixed Huffman tables built in the fixed state of
sinfl_decompress (litlen lengths then the 32 distance lengths). -/
def fixedLens : List Nat :=
  List.replicate 144 8 ++ List.replicate 112 9 ++ List.replicate 24 7 ++
    List.replicate 8 8 ++ List.replicate 32 5

/-- The code-length decode loop of the dyn state of sinfl_decompress; hlens
is the local pre-code table of the source. -/
def dynLensGo : Nat → Bytes → List Nat → Sinfl → List Nat → Nat → Nat → List Nat × Sinfl
  | 0, _, _, s, lens, _, _ => (lens, s)
  | fuel+1, input, hlens, s, lens, n, total =>
    if n < total then
      let s := sinfl_refill input s
      let r := sinfl_decode s hlens 7
      let (sym, s) := r
      if sym = 16 then
        let r2 := sinfl_get input s 2
        let cnt := 3 + r2.1
        let lens := (List.range cnt).foldl
          (fun lens k => lens.set (n + k) (lens.getD (n + k - 1) 0)) lens
        dynLensGo fuel input hlens r2.2 lens (n + cnt) total
      else if sym = 17 then
        let r2 := sinfl_get input s 3
        let cnt := 3 + r2.1
        let lens := (List.range cnt).foldl (fun lens k => lens.set (n + k) 0) lens
        dynLensGo fuel input hlens r2.2 lens (n + cnt) total
      else if sym = 18 then
        let r2 := sinfl_get input s 7
        let cnt := 11 + r2.1
        let lens := (List.range cnt).foldl (fun lens k => lens.set (n + k) 0) lens
        dynLensGo fuel input hlens r2.2 lens (n + cnt) total
      else
        dynLensGo fuel input hlens s (lens.set n sym) (n + 1) total
    else (lens, s)

/-- One match copy of the blk state: byte-by-byte overlap-aware copy from
offset offs back; the SIMD, word and RLE fast paths of the source write the
same bytes into the first len output positions, with any bytes written past
them overwritten by later output. -/
def sinflCopyMatch (out : Bytes) (offs len : Nat) : Bytes :=
  (List.range len).foldl (fun out _ => out ++ [out.getD (out.length - offs) 0]) out

/-- States of the sinfl_decompress block machine. -/
inductive SinflState
  | hdr
  | stored
  | fixed
  | dyn
  | blk
deriving Repr, DecidableEq

/-- Read bytes of the stored-block copy; a negative source index (the
in -= 2 cursor rewind of the source can move before the stream) reads 0. -/
def getDInt (input : Bytes) (i : Int) : Nat :=
  if i < 0 then 0 else input.getD i.toNat 0

/-- The state machine of sinfl_decompress from rpng.h.  input is the
stream the decoder reads bits from (already past the zlib header for
zsinflate), size the size argument used for the stored-block bound, cap
the output capacity, inpos the literal in cursor of the stored state. -/
def sinflRun : Nat → Bytes → Nat → Nat → Sinfl → Int → Bytes → Bool → SinflState → Bytes
  | 0, _, _, _, _, _, out, _, _ => out
  | fuel+1, input, size, cap, s, inpos, out, last, state =>
    match state with
    | SinflState.hdr =>
      let s := sinfl_refill input s
      let r1 := sinflGet0 s 1
      let r2 := sinflGet0 r1.2 2
      let last := r1.1 = 1
      match r2.1 with
      | 0 => sinflRun fuel input size cap r2.2 inpos out last SinflState.stored
      | 1 => sinflRun fuel input size cap r2.2 inpos out last SinflState.fixed
      | 2 => sinflRun fuel input size cap r2.2 inpos out last SinflState.dyn
      | _ => out
    | SinflState.stored =>
      let s := sinfl_refill input s
      let ra := sinflGet0 s (s.bitcnt &&& 7)
      let rl := sinflGet0 ra.2 16
      let rn := sinflGet0 rl.2 16
      let len := rl.1
      let inpos := inpos - 2
      let s := { rn.2 with bitcnt := 0 }
      if (len : Int) > (size : Int) - inpos ∨ len = 0 then out
      else
        let out := out ++ (List.range len).map (fun k => getDInt input (inpos + k))
        sinflRun fuel input size cap s (inpos + len) out last SinflState.hdr
    | SinflState.fixed =>
      let lits := sinfl_build s.lits fixedLens 10 15 288
      let dsts := sinfl_build s.dsts (fixedLens.drop 288) 8 15 32
      sinflRun fuel input size cap { s with lits := lits, dsts := dsts } inpos out last SinflState.blk
    | SinflState.dyn =>
      let s := sinfl_refill input s
      let r1 := sinflGet0 s 5
      let nlit := 257 + r1.1
      let r2 := sinflGet0 r1.2 5
      let ndist := 1 + r2.1
      let r3 := sinflGet0 r2.2 4
      let nlen := 4 + r3.1
      let rn := (List.range nlen).foldl
        (fun (acc : List Nat × Sinfl) n =>
          let rg := sinfl_get input acc.2 3
          (acc.1.set (si_order.getD n 0) rg.1, rg.2))
        (List.replicate 19 0, r3.2)
      let hlens := sinfl_build (List.replicate 128 0) rn.1 7 7 19
      let s := rn.2
      let rd := dynLensGo (nlit + ndist + 1) input hlens s (List.replicate 320 0) 0 (nlit + ndist)
      let lens := rd.1
      let s := rd.2
      let lits := sinfl_build s.lits lens 10 15 nlit
      let dsts := sinfl_build s.dsts (lens.drop nlit) 8 15 ndist
      sinflRun fuel input size cap { s with lits := lits, dsts := dsts } inpos out last SinflState.blk
    | SinflState.blk =>
      let s := sinfl_refill input s
      let r := sinfl_decode s s.lits 10
      let (sym, s) := r
      if sym < 256 then
        if cap ≤ out.length + 1 then out
        else
          let out := out ++ [sym]
          let r2 := sinfl_decode s s.lits 10
          let (sym, s) := r2
          if sym < 256 then
            sinflRun fuel input size cap s inpos (out ++ [sym]) last SinflState.blk
          else if sym = 256 then
            if last then out
            else sinflRun fuel input size cap s inpos out last SinflState.hdr
          else
            let sym := sym - 257
            let rl := sinflGet0 s (si_lbits.getD sym 0)
            let len := rl.1 + si_lbase.getD sym 0
            let rd := sinfl_decode rl.2 rl.2.dsts 8
            let ro := sinflGet0 rd.2 (si_dbits.getD rd.1 0)
            let offs := ro.1 + si_dbase.getD rd.1 0
            if (out.length : Int) < (offs : Int) then out
            else sinflRun fuel input size cap ro.2 inpos (sinflCopyMatch out offs len) last SinflState.blk
      else if sym = 256 then
        if last then out
        else sinflRun fuel input size cap s inpos out last SinflState.hdr
      else
        let sym := sym - 257
        let rl := sinflGet0 s (si_lbits.getD sym 0)
        let len := rl.1 + si_lbase.getD sym 0
        let rd := sinfl_decode rl.2 rl.2.dsts 8
        let ro := sinflGet0 rd.2 (si_dbits.getD rd.1 0)
        let offs := ro.1 + si_dbase.getD rd.1 0
        if (out.length : Int) < (offs : Int) then out
        else sinflRun fuel input size cap ro.2 inpos (sinflCopyMatch out offs len) last SinflState.blk

/-- sinfl_decompress from rpng.h. -/
def sinfl_decompress (input : Bytes) (cap size : Nat) : Bytes :=
  let s : Sinfl := { bitptr := 0, bitbuf := 0, bitcnt := 0,
                     lits := List.replicate 1334 0, dsts := List.replicate 402 0 }
  sinflRun (8*size + cap + 64) input size cap s 0 [] false SinflState.hdr

/-- sinfl_adler32 from rpng.h (same computation as the sdefl copy). -/
def sinfl_adler32 (adler : Nat) (input : Bytes) : Nat :=
  adlerGo (input.length / 5552 + 2) (adler &&& 0xffff) (adler >>> 16) input
    (input.length % 5552)

/-- zsinflate from rpng.h: skip the 2-byte zlib header, inflate, and accept
only when the big-endian Adler-32 trailer matches; none models the -1
error return. -/
def zsinflate (mem : Bytes) (cap : Nat) : Option Bytes :=
  if 6 ≤ mem.length then
    let n := sinfl_decompress (mem.drop 2) cap mem.length
    let a := sinfl_adler32 1 n
    let eob := mem.drop (mem.length - 4)
    let h := (eob.getD 0 0 <<< 24) ||| (eob.getD 1 0 <<< 16) |||
             (eob.getD 2 0 <<< 8) ||| eob.getD 3 0
    if a = h then some n else none
  else none

/-- rpng_save_image_to_memory from rpng.h.  The first component is the
returned buffer (none for NULL), the second the value written through the
output_size parameter (none when the function returns before writing it). -/
def rpng_save_image_to_memory (data : Bytes) (width height color_channels bit_depth : Nat) :
    Option Bytes × Option Nat :=
  if bit_depth ≠ 8 ∧ bit_depth ≠ 16 then (none, none)
  else
    let color_type : Int :=
      if color_channels = 1 then 0
      else if color_channels = 2 then 4
      else if color_channels = 3 then 2
      else if color_channels = 4 then 6
      else -1
    if color_type = -1 then (none, none)
    else
      let pixel_size := color_channels * (bit_depth / 8)
      let scanline_size := width * pixel_size
      let image_info := storeU32LE (swap_endian width) ++ storeU32LE (swap_endian height) ++
        [bit_depth, color_type.toNat, 0, 0, 0]
      let data_filtered := filterImage data pixel_size scanline_size height
      let comp_data := zsdeflate sdeflInit data_filtered 8
      if comp_data.length > 0 then
        let ihdr := storeU32LE (swap_endian 13) ++ ihdrType ++ image_info ++
          storeU32LE (swap_endian (compute_crc32 (ihdrType ++ image_info)))
        let idat := storeU32LE (swap_endian comp_data.length) ++ idatType ++ comp_data ++
          storeU32LE (swap_endian (compute_crc32 (idatType ++ comp_data)))
        let iend := [0, 0, 0, 0, 0x49, 0x45, 0x4e, 0x44, 0xAE, 0x42, 0x60, 0x82]
        let out := png_signature ++ ihdr ++ idat ++ iend
        (some out, some out.length)
      else (none, some 0)

/-- Result of rpng_load_image_from_memory: the returned data pointer (none
for NULL) and the four out-parameters. -/
structure LoadResult where
  ldata : Option Bytes
  lwidth : Nat
  lheight : Nat
  lchannels : Nat
  lbitDepth : Nat
deriving Repr, DecidableEq

/-- The per-chunk IDAT loop of rpng_load_image_from_memory: check the chunk
CRC, inflate the payload on its own with zsinflate, reverse the filters,
and collect the piece; any failure breaks out of the loop. -/
def loadIdatGo : List RChunk → Nat → Nat → Nat → Nat → Nat →
    List (Bytes × Nat) → List (Bytes × Nat)
  | [], _, _, _, _, _, pieces => pieces
  | c :: rest, i, w, h, ch, bd, pieces =>
    if c.ctype = idatType then
      if compute_crc32 (c.ctype ++ c.cdata) = c.ccrc then
        match zsinflate c.cdata RPNG_MAX_OUTPUT_SIZE with
        | none => pieces
        | some dec =>
          if dec.length = 0 then pieces
          else
            let pixel_size := ch * (bd / 8)
            let scanline_size := w * pixel_size
            let unf := unfilterImage dec pixel_size scanline_size h
            let padded := unf ++ List.replicate (dec.length - unf.length) 0
            let pieces := pieces ++ [(padded, dec.length - h)]
            if RPNG_MAX_CHUNKS_COUNT - 1 < i then pieces
            else loadIdatGo rest (i+1) w h ch bd pieces
      else pieces
    else
      if RPNG_MAX_CHUNKS_COUNT - 1 < i then pieces
      else loadIdatGo rest (i+1) w h ch bd pieces

/-- rpng_load_image_from_memory from rpng.h.  When several pieces were
collected they are copied in sequence into a fresh zeroed buffer through a
pointer that is advanced after each copy, and that advanced pointer is what
the function returns; the model keeps that behaviour. -/
def rpng_load_image_from_memory (buffer : Bytes) : Option LoadResult :=
  match rpng_chunk_read_all_from_memory buffer with
  | none => none
  | some chunks =>
    let c0 := chunks.headD { clength := 0, ctype := [], cdata := [], ccrc := 0 }
    let w := swap_endian (readU32LE c0.cdata 0)
    let h := swap_endian (readU32LE c0.cdata 4)
    let bd := c0.cdata.getD 8 0
    let ct := c0.cdata.getD 9 0
    let ch := if ct = 0 then 1 else if ct = 4 then 2 else if ct = 2 then 3
              else if ct = 6 then 4 else 0
    if ch = 1 ∧ bd ≠ 8 ∧ bd ≠ 16 then some { ldata := none, lwidth := w, lheight := h, lchannels := ch, lbitDepth := bd }
    else
      let pieces := if ch ≠ 0 then loadIdatGo (chunks.drop 1) 1 w h ch bd [] else []
      if pieces.length = 1 then
        some { ldata := some (pieces.headD ([], 0)).1, lwidth := w, lheight := h,
               lchannels := ch, lbitDepth := bd }
      else
        let total := (pieces.map (fun p => p.2)).sum
        let mem := (pieces.map (fun p => p.1.take p.2)).flatten ++
          (List.replicate (w*h*ch*(bd/8)) 0).drop total
        some { ldata := some (mem.drop total), lwidth := w, lheight := h,
               lchannels := ch, lbitDepth := bd }

/-- Decoder behaviour the specification describes for multiple IDAT chunks,
written from its words: collect every IDAT payload in order, concatenate
them into one zlib stream, inflate that single stream, and reverse the
filters over the result. -/
def loadImageConcatSpec (buffer : Bytes) : Option LoadResult :=
  match rpng_chunk_read_all_from_memory buffer with
  | none => none
  | some chunks =>
    let c0 := chunks.headD { clength := 0, ctype := [], cdata := [], ccrc := 0 }
    let w := swap_endian (readU32LE c0.cdata 0)
    let h := swap_endian (readU32LE c0.cdata 4)
    let bd := c0.cdata.getD 8 0
    let ct := c0.cdata.getD 9 0
    let ch := if ct = 0 then 1 else if ct = 4 then 2 else if ct = 2 then 3
              else if ct = 6 then 4 else 0
    if ch = 0 ∨ (bd ≠ 8 ∧ bd ≠ 16) then
      some { ldata := none, lwidth := w, lheight := h, lchannels := ch, lbitDepth := bd }
    else
      let idat := ((chunks.filter (fun c => c.ctype = idatType)).map (fun c => c.cdata)).flatten
      match zsinflate idat RPNG_MAX_OUTPUT_SIZE with
      | none => some { ldata := none, lwidth := w, lheight := h, lchannels := ch, lbitDepth := bd }
      | some dec =>
        let pixel_size := ch * (bd / 8)
        let scanline_size := w * pixel_size
        some { ldata := some (unfilterImage dec pixel_size scanline_size h),
               lwidth := w, lheight := h, lchannels := ch, lbitDepth := bd }

/-- The pixel bytes of a load result: the first
width*height*channels*(bit_depth/8) bytes of the returned buffer. -/
def loadPixels (r : LoadResult) : Option Bytes :=
  r.ldata.map (fun d => d.take (r.lwidth * r.lheight * r.lchannels * (r.lbitDepth / 8)))

/-- Well-formedness of an in-memory chunk as the wire format assumes it:
4 type bytes not spelling IEND, a length field that matches the data and
fits a C int, and a CRC that fits 32 bits. -/
def WFChunk (c : RChunk) : Prop :=
  c.ctype.length = 4 ∧ c.ctype ≠ iendType ∧ c.clength = c.cdata.length ∧
    c.clength < 2^31 ∧ c.ccrc < 2^32

instance (c : RChunk) : Decidable (WFChunk c) := by
  unfold WFChunk; infer_instance

/-- Serialization of a chunk sequence. -/
def serChunks (cs : List RChunk) : Bytes := (cs.map chunkWireBytes).flatten

/-- The IEND chunk value with a given stored CRC. -/
def iendChunk (crc : Nat) : RChunk :=
  { clength := 0, ctype := iendType, cdata := [], ccrc := crc }

/-- A PNG stream laid out from parsed chunks: signature, chunk sequence,
final IEND chunk. -/
def pngOf (cs : List RChunk) (iendCrc : Nat) : Bytes :=
  png_signature ++ serChunks cs ++ chunkWireBytes (iendChunk iendCrc)

/-- A chunk with its CRC recomputed over type and data, as
rpng_chunk_write_from_memory stores it. -/
def withComputedCrc (c : RChunk) : RChunk :=
  { c with ccrc := compute_crc32 (c.ctype ++ c.cdata) }

/-- Chunk-level effect of rpng_chunk_write_from_memory: the new chunk is
spliced after every chunk whose FOURCC is IHDR. -/
def insertAfterIhdrCL (cs : List RChunk) (k : RChunk) : List RChunk :=
  (cs.map (fun c => if c.ctype = ihdrType then [c, withComputedCrc k] else [c])).flatten

/-- Concatenation of the IDAT payloads of a chunk sequence. -/
def idatConcatCL (cs : List RChunk) : Bytes :=
  ((cs.filter (fun c => c.ctype = idatType)).map (fun c => c.cdata)).flatten

/-- Chunk-level counterpart of splitPieces: the IDAT piece chunks for one
payload, with per-piece CRCs. -/
def piecesCL : Nat → Bytes → Nat → List RChunk
  | 0, remain, _ =>
    [{ clength := remain.length, ctype := idatType, cdata := remain,
       ccrc := compute_crc32 (idatType ++ remain) }]
  | fuel+1, remain, split_size =>
    if remain.length > split_size then
      { clength := split_size, ctype := idatType, cdata := remain.take split_size,
        ccrc := compute_crc32 (idatType ++ remain.take split_size) } ::
        piecesCL fuel (remain.drop split_size) split_size
    else
      [{ clength := remain.length, ctype := idatType, cdata := remain,
         ccrc := compute_crc32 (idatType ++ remain) }]

/-- Chunk-level effect of rpng_chunk_split_image_data_from_memory. -/
def splitCL (cs : List RChunk) (split_size : Nat) : List RChunk :=
  (cs.map (fun c =>
    if c.ctype = idatType ∧ c.clength > split_size then
      piecesCL (c.clength + 1) c.cdata split_size
    else [c])).flatten

/-- Sum over one scanline of the absolute signed-byte filtered outputs, the
quantity the specification's per-row heuristic minimizes. -/
def rowFilterSumSpec (data : Bytes) (pixel_size scanline y f : Nat) : Nat :=
  ((List.range scanline).map
    (fun p => absSignedByte (filterOutInt data pixel_size scanline y p f 0))).sum

/-- The same sum accumulated over scanlines 0..y, which is what the code
actually minimizes because sum_value is never reset. -/
def cumFilterSumSpec (data : Bytes) (pixel_size scanline y f : Nat) : Nat :=
  ((List.range (y+1)).map (fun r => rowFilterSumSpec data pixel_size scanline r f)).sum

/-- First filter index among 0..4 achieving the smallest value of g. -/
def argminFilter5 (g : Nat → Nat) : Nat :=
  if g 0 ≤ g 1 ∧ g 0 ≤ g 2 ∧ g 0 ≤ g 3 ∧ g 0 ≤ g 4 then 0
  else if g 1 ≤ g 2 ∧ g 1 ≤ g 3 ∧ g 1 ≤ g 4 then 1
  else if g 2 ≤ g 3 ∧ g 2 ≤ g 4 then 2
  else if g 3 ≤ g 4 then 3
  else 4

/-- The reference Paeth predictor of the claim: exact integer arithmetic and
no truncation of the returned neighbour. -/
def paethRefSpec (a b c : Nat) : Nat :=
  let p : Int := (a : Int) + b - c
  let pa := (p - a).natAbs
  let pb := (p - b).natAbs
  let pc := (p - c).natAbs
  if pa ≤ pb ∧ pa ≤ pc then a
  else if pb ≤ pc then b
  else c

/-- The 1x1 gray-8 PNG produced by rpng_save_image_to_memory for pixel 0x7F
(extracted by evaluating the embedding). -/
def savedPng1x1 : Bytes :=
  [137, 80, 78, 71, 13, 10, 26, 10, 0, 0, 0, 13, 73, 72, 68, 82, 0, 0, 0, 1,
   0, 0, 0, 1, 8, 0, 0, 0, 0, 58, 126, 155, 85, 0, 0, 0, 19, 73, 68, 65, 84,
   120, 1, 5, 192, 1, 9, 0, 0, 0, 128, 160, 158, 119, 93, 26, 0, 129, 0, 128,
   3, 113, 118, 42, 0, 0, 0, 0, 73, 69, 78, 68, 174, 66, 96, 130]

/-- savedPng1x1 with its single zlib stream split over seven consecutive
IDAT chunks of at most 3 payload bytes (the output of
rpng_chunk_split_image_data_from_memory at split size 3); a valid PNG whose
image data can only be inflated from the concatenated payloads. -/
def splitPng1x1 : Bytes :=
  [137, 80, 78, 71, 13, 10, 26, 10, 0, 0, 0, 13, 73, 72, 68, 82, 0, 0, 0, 1,
   0, 0, 0, 1, 8, 0, 0, 0, 0, 58, 126, 155, 85,
   0, 0, 0, 3, 73, 68, 65, 84, 120, 1, 5, 202, 89, 178, 132,
   0, 0, 0, 3, 73, 68, 65, 84, 192, 1, 9, 8, 162, 81, 7,
   0, 0, 0, 3, 73, 68, 65, 84, 0, 0, 0, 249, 202, 78, 162,
   0, 0, 0, 3, 73, 68, 65, 84, 128, 160, 158, 161, 79, 87, 136,
   0, 0, 0, 3, 73, 68, 65, 84, 119, 93, 26, 90, 3, 234, 20,
   0, 0, 0, 3, 73, 68, 65, 84, 0, 129, 0, 219, 82, 231, 168,
   0, 0, 0, 1, 73, 68, 65, 84, 128, 197, 128, 254, 200,
   0, 0, 0, 0, 73, 69, 78, 68, 174, 66, 96, 130]

/-- A 0-length chunk with the private FOURCC teSt, used as a concrete test
vector for the chunk-engine theorems. -/
def testChunk : RChunk :=
  { clength := 0, ctype := [0x74, 0x65, 0x53, 0x74], cdata := [], ccrc := 0 }

/-- A 0-length IHDR-typed chunk used as a concrete test vector. -/
def testIhdr0 : RChunk :=
  { clength := 0, ctype := ihdrType, cdata := [], ccrc := 0 }

/-- A 2-byte IDAT chunk used as a concrete test vector. -/
def testIdat : RChunk :=
  { clength := 2, ctype := idatType, cdata := [7, 9], ccrc := 0 }

/-! Bitwise arithmetic infrastructure for the wire-format lemmas. -/

theorem or_eq_add_of_and_eq_zero : ∀ fuel x y : Nat, x ≤ fuel → x &&& y = 0 →
    x ||| y = x + y := by
  intro fuel
  induction fuel with
  | zero =>
    intro x y hx h
    have : x = 0 := by omega
    subst this; simp
  | succ f ih =>
    intro x y hx h
    rcases Nat.eq_zero_or_pos x with rfl | hpos
    · simp
    · have hdiv : x / 2 &&& y / 2 = 0 := by
        rw [← Nat.and_div_two, h]
      have hrec := ih (x/2) (y/2) (by omega) hdiv
      have h1 : (x ||| y) / 2 = x/2 + y/2 := by rw [Nat.or_div_two, hrec]
      have h2 : ¬(x % 2 = 1 ∧ y % 2 = 1) := by
        intro hc
        have := Nat.and_mod_two_eq_one.mpr hc
        rw [h] at this
        simp at this
      have h3 := @Nat.or_mod_two_eq_one x y
      have hx2 := Nat.mod_two_eq_zero_or_one x
      have hy2 := Nat.mod_two_eq_zero_or_one y
      have hxy2 := Nat.mod_two_eq_zero_or_one (x ||| y)
      have hd1 : x = 2*(x/2) + x % 2 := by omega
      have hd2 : y = 2*(y/2) + y % 2 := by omega
      have hd3 : (x ||| y) = 2*((x ||| y)/2) + (x ||| y) % 2 := by omega
      omega

theorem and_mul_pow_eq_zero {a b i : Nat} (hb : b < 2^i) : (a * 2^i) &&& b = 0 := by
  apply Nat.eq_of_testBit_eq
  intro j
  simp only [Nat.testBit_and, Nat.zero_testBit]
  rcases Nat.lt_or_ge j i with hj | hj
  · have : (a * 2^i).testBit j = false := by
      rw [← Nat.shiftLeft_eq]
      simp [Nat.testBit_shiftLeft]
      omega
    simp [this]
  · have : b.testBit j = false :=
      Nat.testBit_lt_two_pow (lt_of_lt_of_le hb (Nat.pow_le_pow_right (by norm_num) hj))
    simp [this]

theorem or_mul_pow_add {a b i : Nat} (hb : b < 2^i) : (a * 2^i) ||| b = a * 2^i + b :=
  or_eq_add_of_and_eq_zero (a * 2^i) (a * 2^i) b (Nat.le_refl _) (and_mul_pow_eq_zero hb)

theorem and_mask_lane (x k : Nat) : x &&& ((2^8 - 1) <<< k) = (x >>> k % 2^8) <<< k := by
  apply Nat.eq_of_testBit_eq
  intro i
  simp only [Nat.testBit_and, Nat.testBit_shiftLeft, Nat.testBit_two_pow_sub_one,
    Nat.testBit_mod_two_pow, Nat.testBit_shiftRight]
  by_cases hk : k ≤ i
  · have hik : k + (i - k) = i := by omega
    simp only [hk, decide_True, Bool.true_and, hik]
    cases hx : x.testBit i <;> cases hd : decide (i - k < 8) <;> simp
  · simp only [hk, decide_False, Bool.false_and, Bool.and_false]

theorem swap_endian_arith (v : Nat) : swap_endian v =
    v / 2^24 % 2^8 + (v / 2^16 % 2^8) * 2^8 + (v / 2^8 % 2^8) * 2^16 + (v % 2^8) * 2^24 := by
  have e8 : (0xff : Nat) = 2^8 - 1 := by decide
  have e16 : (0xff00 : Nat) = (2^8 - 1) <<< 8 := by decide
  have e24 : (0xff0000 : Nat) = (2^8 - 1) <<< 16 := by decide
  have e32 : (0xff000000 : Nat) = (2^8 - 1) <<< 24 := by decide
  have b0 : v % 2^8 < 2^8 := Nat.mod_lt _ (by norm_num)
  have b1 : v / 2^8 % 2^8 < 2^8 := Nat.mod_lt _ (by norm_num)
  have b2 : v / 2^16 % 2^8 < 2^8 := Nat.mod_lt _ (by norm_num)
  have b3 : v / 2^24 % 2^8 < 2^8 := Nat.mod_lt _ (by norm_num)
  unfold swap_endian
  rw [e8, e16, e24, e32]
  have m1 : (v &&& (2^8 - 1)) <<< 24 = (v % 2^8) * 2^24 := by
    rw [Nat.and_pow_two_sub_one_eq_mod, Nat.shiftLeft_eq]
  have m2 : (v &&& ((2^8 - 1) <<< 8)) <<< 8 = (v / 2^8 % 2^8) * 2^16 := by
    rw [and_mask_lane, Nat.shiftLeft_eq, Nat.shiftLeft_eq, Nat.shiftRight_eq_div_pow]
    ring
  have m3 : (v &&& ((2^8 - 1) <<< 16)) >>> 8 = (v / 2^16 % 2^8) * 2^8 := by
    rw [and_mask_lane, Nat.shiftLeft_eq, Nat.shiftRight_eq_div_pow,
      Nat.shiftRight_eq_div_pow]
    have : (2:Nat)^16 = 2^8 * 2^8 := by norm_num
    rw [this, ← Nat.mul_assoc, Nat.mul_div_cancel _ (by norm_num : (0:Nat) < 2^8)]
  have m4 : (v &&& ((2^8 - 1) <<< 24)) >>> 24 = v / 2^24 % 2^8 := by
    rw [and_mask_lane, Nat.shiftLeft_eq, Nat.shiftRight_eq_div_pow,
      Nat.shiftRight_eq_div_pow]
    exact Nat.mul_div_cancel _ (by norm_num : (0:Nat) < 2^24)
  rw [m1, m2, m3, m4]
  have h12 : (v % 2^8) * 2^24 ||| (v / 2^8 % 2^8) * 2^16 =
      (v % 2^8) * 2^24 + (v / 2^8 % 2^8) * 2^16 :=
    or_mul_pow_add (by omega)
  rw [h12]
  have e2 : (v % 2^8) * 2^24 + (v / 2^8 % 2^8) * 2^16 =
      ((v % 2^8) * 2^8 + v / 2^8 % 2^8) * 2^16 := by ring
  rw [e2]
  have h123 : ((v % 2^8) * 2^8 + v / 2^8 % 2^8) * 2^16 ||| (v / 2^16 % 2^8) * 2^8 =
      ((v % 2^8) * 2^8 + v / 2^8 % 2^8) * 2^16 + (v / 2^16 % 2^8) * 2^8 :=
    or_mul_pow_add (by omega)
  rw [h123]
  have e3 : ((v % 2^8) * 2^8 + v / 2^8 % 2^8) * 2^16 + (v / 2^16 % 2^8) * 2^8 =
      (((v % 2^8) * 2^8 + v / 2^8 % 2^8) * 2^8 + v / 2^16 % 2^8) * 2^8 := by ring
  rw [e3]
  have h1234 : (((v % 2^8) * 2^8 + v / 2^8 % 2^8) * 2^8 + v / 2^16 % 2^8) * 2^8 |||
      v / 2^24 % 2^8 =
      (((v % 2^8) * 2^8 + v / 2^8 % 2^8) * 2^8 + v / 2^16 % 2^8) * 2^8 + v / 2^24 % 2^8 :=
    or_mul_pow_add (by omega)
  rw [h1234]
  ring

theorem swap_endian_lt (v : Nat) : swap_endian v < 2^32 := by
  rw [swap_endian_arith]
  omega

theorem swap_arith_bytes {X Y Z W : Nat} (hx : X < 2^8) (hy : Y < 2^8)
    (hz : Z < 2^8) (hw : W < 2^8) :
    swap_endian (X + Y * 2^8 + Z * 2^16 + W * 2^24) =
      W + Z * 2^8 + Y * 2^16 + X * 2^24 := by
  rw [swap_endian_arith]
  omega

theorem swap_endian_swap_endian {v : Nat} (hv : v < 2^32) :
    swap_endian (swap_endian v) = v := by
  rw [swap_endian_arith v]
  rw [swap_arith_bytes (Nat.mod_lt _ (by norm_num)) (Nat.mod_lt _ (by norm_num))
    (Nat.mod_lt _ (by norm_num)) (Nat.mod_lt _ (by norm_num))]
  omega

theorem storeU32LE_eq (v : Nat) :
    storeU32LE v = [v % 2^8, v / 2^8 % 2^8, v / 2^16 % 2^8, v / 2^24 % 2^8] := by
  have e8 : (0xff : Nat) = 2^8 - 1 := by norm_num
  unfold storeU32LE
  rw [e8, Nat.and_pow_two_sub_one_eq_mod, Nat.and_pow_two_sub_one_eq_mod,
    Nat.and_pow_two_sub_one_eq_mod, Nat.and_pow_two_sub_one_eq_mod,
    Nat.shiftRight_eq_div_pow, Nat.shiftRight_eq_div_pow, Nat.shiftRight_eq_div_pow]

theorem storeU32LE_length (v : Nat) : (storeU32LE v).length = 4 := by
  rw [storeU32LE_eq]; rfl

theorem lor_lane (lo hi i k : Nat) (hk : hi = k * 2^i) (hlo : lo < 2^i) :
    lo ||| hi = lo + hi := by
  subst hk
  rw [Nat.lor_comm, or_mul_pow_add hlo]
  omega

theorem readU32LE_append_store (v : Nat) (r : Bytes) :
    readU32LE (storeU32LE v ++ r) 0 = v % 2^32 := by
  rw [storeU32LE_eq]
  unfold readU32LE
  simp only [List.cons_append, List.nil_append, List.getD_cons_zero, List.getD_cons_succ]
  rw [Nat.shiftLeft_eq, Nat.shiftLeft_eq, Nat.shiftLeft_eq]
  rw [Nat.lor_assoc, Nat.lor_assoc]
  have h34 : v / 2^16 % 2^8 * 2^16 ||| v / 2^24 % 2^8 * 2^24 =
      v / 2^16 % 2^8 * 2^16 + v / 2^24 % 2^8 * 2^24 :=
    lor_lane _ _ 24 (v / 2^24 % 2^8) rfl (by omega)
  rw [h34]
  have h2 : v / 2^8 % 2^8 * 2^8 ||| (v / 2^16 % 2^8 * 2^16 + v / 2^24 % 2^8 * 2^24) =
      v / 2^8 % 2^8 * 2^8 + (v / 2^16 % 2^8 * 2^16 + v / 2^24 % 2^8 * 2^24) :=
    lor_lane _ _ 16 (v / 2^16 % 2^8 + v / 2^24 % 2^8 * 2^8) (by omega) (by omega)
  rw [h2]
  have h1 : v % 2^8 |||
      (v / 2^8 % 2^8 * 2^8 + (v / 2^16 % 2^8 * 2^16 + v / 2^24 % 2^8 * 2^24)) =
      v % 2^8 + (v / 2^8 % 2^8 * 2^8 + (v / 2^16 % 2^8 * 2^16 + v / 2^24 % 2^8 * 2^24)) :=
    lor_lane _ _ 8 (v / 2^8 % 2^8 + v / 2^16 % 2^8 * 2^8 + v / 2^24 % 2^8 * 2^16)
      (by omega) (by omega)
  rw [h1]
  omega

theorem parse_store_swap {v : Nat} (hv : v < 2^32) (r : Bytes) :
    swap_endian (readU32LE (storeU32LE (swap_endian v) ++ r) 0) = v := by
  rw [readU32LE_append_store, Nat.mod_eq_of_lt (swap_endian_lt v),
    swap_endian_swap_endian hv]

theorem readU32LE_drop (buf : Bytes) (i : Nat) :
    readU32LE buf i = readU32LE (buf.drop i) 0 := by
  unfold readU32LE
  simp [List.getD_eq_getElem?_getD, List.getElem?_drop]

theorem chunkWireBytes_length (c : RChunk) (h4 : c.ctype.length = 4) :
    (chunkWireBytes c).length = 12 + c.cdata.length := by
  simp [chunkWireBytes, storeU32LE_eq, h4]
  omega

theorem wire_slice_type (c : RChunk) (h4 : c.ctype.length = 4) (R : Bytes) :
    byteSlice (chunkWireBytes c ++ R) 4 4 = c.ctype := by
  unfold byteSlice chunkWireBytes
  rw [List.append_assoc, List.append_assoc, List.append_assoc,
    List.drop_left' (storeU32LE_length _), List.take_left' h4]

theorem wire_head_size (c : RChunk) (hlt : c.clength < 2^32) (R : Bytes) :
    swap_endian (readU32LE (chunkWireBytes c ++ R) 0) = c.clength := by
  unfold chunkWireBytes
  rw [List.append_assoc, List.append_assoc, List.append_assoc]
  exact parse_store_swap hlt _

theorem wire_data (c : RChunk) (h4 : c.ctype.length = 4)
    (hlen : c.clength = c.cdata.length) (R : Bytes) :
    byteSlice (chunkWireBytes c ++ R) 8 c.clength = c.cdata := by
  unfold byteSlice chunkWireBytes
  rw [List.append_assoc, List.append_assoc, List.append_assoc]
  rw [show (8 : Nat) = ((storeU32LE (swap_endian c.clength)).length + c.ctype.length) by
    rw [storeU32LE_length, h4]]
  rw [← List.drop_drop, List.drop_left, List.drop_left, List.take_left' hlen.symm]

theorem wire_crc (c : RChunk) (h4 : c.ctype.length = 4)
    (hlen : c.clength = c.cdata.length) (hcrc : c.ccrc < 2^32) (R : Bytes) :
    swap_endian (readU32LE (chunkWireBytes c ++ R) (8 + c.clength)) = c.ccrc := by
  rw [readU32LE_drop]
  unfold chunkWireBytes
  rw [List.append_assoc, List.append_assoc, List.append_assoc]
  rw [show (8 + c.clength : Nat) =
    ((storeU32LE (swap_endian c.clength)).length + (c.ctype.length + c.cdata.length)) by
    rw [storeU32LE_length, h4]; omega]
  rw [← List.drop_drop, List.drop_left]
  rw [← List.drop_drop, List.drop_left, List.drop_left]
  exact parse_store_swap hcrc _

theorem wire_drop (c : RChunk) (h4 : c.ctype.length = 4)
    (hlen : c.clength = c.cdata.length) (R : Bytes) :
    (chunkWireBytes c ++ R).drop (12 + c.clength) = R := by
  rw [List.drop_left']
  rw [chunkWireBytes_length c h4]
  omega

theorem wire_take (c : RChunk) (h4 : c.ctype.length = 4)
    (hlen : c.clength = c.cdata.length) (R : Bytes) :
    (chunkWireBytes c ++ R).take (12 + c.clength) = chunkWireBytes c := by
  rw [List.take_left']
  rw [chunkWireBytes_length c h4]
  omega

theorem parseChunkAt_wire (c : RChunk) (h4 : c.ctype.length = 4)
    (hlen : c.clength = c.cdata.length) (hlt : c.clength < 2^32)
    (hcrc : c.ccrc < 2^32) (R : Bytes) :
    parseChunkAt (chunkWireBytes c ++ R) = c := by
  simp only [parseChunkAt]
  rw [wire_head_size c (by omega) R]
  rw [wire_slice_type c h4 R, wire_data c h4 hlen R, wire_crc c h4 hlen hcrc R]

theorem serChunks_cons (c : RChunk) (cs : List RChunk) :
    serChunks (c :: cs) = chunkWireBytes c ++ serChunks cs := by
  simp [serChunks]

theorem serChunks_nil : serChunks [] = [] := rfl

theorem length_le_serChunks (cs : List RChunk) : cs.length ≤ (serChunks cs).length := by
  induction cs with
  | nil => simp [serChunks]
  | cons c cs ih =>
    rw [serChunks_cons]
    simp only [List.length_append, List.length_cons]
    have : 4 ≤ (chunkWireBytes c).length := by
      unfold chunkWireBytes
      simp [storeU32LE_eq]
    omega

theorem iend_wf_fields : (iendType : Bytes).length = 4 := by decide

theorem wire_iend_slice (crc : Nat) (R : Bytes) :
    byteSlice (chunkWireBytes (iendChunk crc) ++ R) 4 4 = iendType :=
  wire_slice_type (iendChunk crc) rfl R

theorem countGo_ser (cs : List RChunk) (crc : Nat) :
    ∀ fuel acc, (∀ c ∈ cs, WFChunk c) → cs.length < fuel →
    countGo fuel (serChunks cs ++ chunkWireBytes (iendChunk crc)) acc = acc + cs.length := by
  induction cs with
  | nil =>
    intro fuel acc _ hf
    cases fuel with
    | zero => omega
    | succ f =>
      rw [serChunks_nil, List.nil_append]
      unfold countGo
      rw [← List.append_nil (chunkWireBytes (iendChunk crc)), if_pos (wire_iend_slice crc [])]
      simp
  | cons c cs ih =>
    intro fuel acc hwf hf
    cases fuel with
    | zero => simp at hf
    | succ f =>
      have wfc := hwf c (List.mem_cons_self c cs)
      rw [serChunks_cons, List.append_assoc]
      unfold countGo
      rw [if_neg (by rw [wire_slice_type c wfc.1 _]; exact wfc.2.1)]
      rw [wire_head_size c (by have := wfc.2.2.2.1; omega) _]
      rw [wire_drop c wfc.1 wfc.2.2.1 _]
      rw [ih f (acc+1) (fun x hx => hwf x (List.mem_cons_of_mem c hx)) (by simp at hf; omega)]
      simp
      omega

theorem png_signature_length : (png_signature : Bytes).length = 8 := by decide

theorem count_pngOf (cs : List RChunk) (crc : Nat) (hwf : ∀ c ∈ cs, WFChunk c) :
    rpng_chunk_count_from_memory (pngOf cs crc) = cs.length + 1 := by
  unfold rpng_chunk_count_from_memory pngOf
  rw [List.append_assoc]
  rw [List.take_left' png_signature_length]
  rw [if_pos rfl]
  rw [List.drop_left' png_signature_length]
  have h1 := length_le_serChunks cs
  rw [countGo_ser cs crc _ 0 hwf (by simp only [List.length_append]; omega)]
  omega

theorem crc_table_lt : ∀ x ∈ crc_table, x < 2^32 := by decide

theorem crc_table_getD_lt (i : Nat) : crc_table.getD i 0 < 2^32 := by
  by_cases h : i < crc_table.length
  · rw [List.getD_eq_getElem crc_table 0 h]
    exact crc_table_lt _ (List.getElem_mem h)
  · rw [List.getD_eq_default crc_table 0 (by omega)]
    norm_num

theorem compute_crc32_lt (buffer : Bytes) : compute_crc32 buffer < 2^32 := by
  unfold compute_crc32
  have hfold : ∀ (l : Bytes) (acc : Nat), acc < 2^32 →
      List.foldl (fun crc b => (crc >>> 8) ^^^ crc_table.getD ((b ^^^ (crc &&& 0xff)) &&& 0xff) 0)
        acc l < 2^32 := by
    intro l
    induction l with
    | nil => intro acc h; exact h
    | cons b bs ih =>
      intro acc h
      apply ih
      exact Nat.xor_lt_two_pow
        (by rw [Nat.shiftRight_eq_div_pow]; exact lt_of_le_of_lt (Nat.div_le_self _ _) h)
        (crc_table_getD_lt _)
  refine Nat.xor_lt_two_pow ?_ (by norm_num)
  exact hfold buffer 0xFFFFFFFF (by norm_num)

theorem serChunks_append (a b : List RChunk) :
    serChunks (a ++ b) = serChunks a ++ serChunks b := by
  simp [serChunks]

theorem iendW_take_12 (crc : Nat) :
    (chunkWireBytes (iendChunk crc)).take 12 = chunkWireBytes (iendChunk crc) := by
  apply List.take_of_length_le
  rw [chunkWireBytes_length (iendChunk crc) rfl]
  simp [iendChunk]

theorem removeGo_ser (cs : List RChunk) (t : Bytes) (crc : Nat) :
    ∀ fuel out, (∀ c ∈ cs, WFChunk c) → cs.length < fuel →
    removeGo fuel (serChunks cs ++ chunkWireBytes (iendChunk crc)) t out =
      (out ++ serChunks (cs.filter (fun c => c.ctype ≠ t)),
       chunkWireBytes (iendChunk crc)) := by
  induction cs with
  | nil =>
    intro fuel out _ hf
    cases fuel with
    | zero => omega
    | succ f =>
      rw [serChunks_nil, List.nil_append]
      unfold removeGo
      rw [← List.append_nil (chunkWireBytes (iendChunk crc)), if_pos (wire_iend_slice crc [])]
      simp [serChunks]
  | cons c cs ih =>
    intro fuel out hwf hf
    cases fuel with
    | zero => simp at hf
    | succ f =>
      have wfc := hwf c (List.mem_cons_self c cs)
      rw [serChunks_cons, List.append_assoc]
      unfold removeGo
      simp only []
      rw [if_neg (by rw [wire_slice_type c wfc.1 _]; exact wfc.2.1)]
      rw [wire_head_size c (by have := wfc.2.2.2.1; omega) _]
      rw [wire_slice_type c wfc.1 _]
      rw [wire_drop c wfc.1 wfc.2.2.1 _]
      rw [wire_take c wfc.1 wfc.2.2.1 _]
      rw [ih f _ (fun x hx => hwf x (List.mem_cons_of_mem c hx)) (by simp at hf ⊢; omega)]
      by_cases hct : c.ctype = t
      · rw [if_pos hct]
        have : (c :: cs).filter (fun c => c.ctype ≠ t) = cs.filter (fun c => c.ctype ≠ t) := by
          rw [List.filter_cons]
          simp [hct]
        rw [this]
      · rw [if_neg hct]
        have : (c :: cs).filter (fun c => c.ctype ≠ t) =
            c :: cs.filter (fun c => c.ctype ≠ t) := by
          rw [List.filter_cons]
          simp [hct]
        rw [this, serChunks_cons]
        simp

theorem remove_pngOf (cs : List RChunk) (t : Bytes) (crc : Nat)
    (hwf : ∀ c ∈ cs, WFChunk c) :
    rpng_chunk_remove_from_memory (pngOf cs crc) t =
      (some (pngOf (cs.filter (fun c => c.ctype ≠ t)) crc),
       (pngOf (cs.filter (fun c => c.ctype ≠ t)) crc).length) := by
  simp only [rpng_chunk_remove_from_memory]
  conv_lhs => rw [pngOf, List.append_assoc]
  rw [List.take_left' png_signature_length]
  rw [if_pos rfl]
  rw [List.drop_left' png_signature_length]
  have h1 := length_le_serChunks cs
  rw [removeGo_ser cs t crc _ png_signature hwf (by simp only [List.length_append]; omega)]
  rw [iendW_take_12]
  rw [pngOf, List.append_assoc]

theorem write_splice_eq (k : RChunk) :
    storeU32LE (swap_endian k.clength) ++ k.ctype ++ k.cdata ++
      storeU32LE (swap_endian (compute_crc32 (k.ctype ++ k.cdata))) =
    chunkWireBytes (withComputedCrc k) := by
  simp [chunkWireBytes, withComputedCrc]

theorem writeGo_ser (cs : List RChunk) (k : RChunk) (crc : Nat) :
    ∀ fuel out, (∀ c ∈ cs, WFChunk c) → cs.length < fuel →
    writeGo fuel (serChunks cs ++ chunkWireBytes (iendChunk crc)) k out =
      (out ++ serChunks (insertAfterIhdrCL cs k), chunkWireBytes (iendChunk crc)) := by
  induction cs with
  | nil =>
    intro fuel out _ hf
    cases fuel with
    | zero => omega
    | succ f =>
      rw [serChunks_nil, List.nil_append]
      unfold writeGo
      rw [← List.append_nil (chunkWireBytes (iendChunk crc)), if_pos (wire_iend_slice crc [])]
      simp [serChunks, insertAfterIhdrCL]
  | cons c cs ih =>
    intro fuel out hwf hf
    cases fuel with
    | zero => simp at hf
    | succ f =>
      have wfc := hwf c (List.mem_cons_self c cs)
      rw [serChunks_cons, List.append_assoc]
      unfold writeGo
      simp only []
      rw [if_neg (by rw [wire_slice_type c wfc.1 _]; exact wfc.2.1)]
      rw [wire_head_size c (by have := wfc.2.2.2.1; omega) _]
      rw [wire_slice_type c wfc.1 _]
      rw [wire_drop c wfc.1 wfc.2.2.1 _]
      rw [wire_take c wfc.1 wfc.2.2.1 _]
      rw [ih f _ (fun x hx => hwf x (List.mem_cons_of_mem c hx)) (by simp at hf ⊢; omega)]
      have hins : insertAfterIhdrCL (c :: cs) k =
          (if c.ctype = ihdrType then [c, withComputedCrc k] else [c]) ++
            insertAfterIhdrCL cs k := by
        simp [insertAfterIhdrCL]
      rw [hins, serChunks_append]
      by_cases hct : c.ctype = ihdrType
      · rw [if_pos hct, if_pos hct]
        have : serChunks [c, withComputedCrc k] =
            chunkWireBytes c ++ chunkWireBytes (withComputedCrc k) := by
          simp [serChunks]
        rw [this, ← write_splice_eq k]
        simp
      · rw [if_neg hct, if_neg hct]
        have : serChunks [c] = chunkWireBytes c := by simp [serChunks]
        rw [this]
        simp

theorem write_pngOf (cs : List RChunk) (k : RChunk) (crc : Nat)
    (hwf : ∀ c ∈ cs, WFChunk c) :
    rpng_chunk_write_from_memory (pngOf cs crc) k =
      (some (pngOf (insertAfterIhdrCL cs k) crc),
       (pngOf (insertAfterIhdrCL cs k) crc).length) := by
  simp only [rpng_chunk_write_from_memory]
  conv_lhs => rw [pngOf, List.append_assoc]
  rw [List.take_left' png_signature_length]
  rw [if_pos rfl]
  rw [List.drop_left' png_signature_length]
  have h1 := length_le_serChunks cs
  rw [writeGo_ser cs k crc _ png_signature hwf (by simp only [List.length_append]; omega)]
  rw [iendW_take_12]
  rw [pngOf, List.append_assoc]

theorem combineGo_ser (cs : List RChunk) (crc : Nat) :
    ∀ fuel idata out, (∀ c ∈ cs, WFChunk c) → cs.length < fuel →
    combineGo fuel (serChunks cs ++ chunkWireBytes (iendChunk crc)) idata out =
      (idata ++ idatConcatCL cs,
       out ++ serChunks (cs.filter (fun c => c.ctype ≠ idatType)),
       chunkWireBytes (iendChunk crc)) := by
  induction cs with
  | nil =>
    intro fuel idata out _ hf
    cases fuel with
    | zero => omega
    | succ f =>
      rw [serChunks_nil, List.nil_append]
      unfold combineGo
      rw [← List.append_nil (chunkWireBytes (iendChunk crc)), if_pos (wire_iend_slice crc [])]
      simp [serChunks, idatConcatCL]
  | cons c cs ih =>
    intro fuel idata out hwf hf
    cases fuel with
    | zero => simp at hf
    | succ f =>
      have wfc := hwf c (List.mem_cons_self c cs)
      rw [serChunks_cons, List.append_assoc]
      unfold combineGo
      simp only []
      rw [if_neg (by rw [wire_slice_type c wfc.1 _]; exact wfc.2.1)]
      rw [wire_head_size c (by have := wfc.2.2.2.1; omega) _]
      rw [wire_slice_type c wfc.1 _]
      rw [wire_drop c wfc.1 wfc.2.2.1 _]
      have hconcat : idatConcatCL (c :: cs) =
          (if c.ctype = idatType then c.cdata else []) ++ idatConcatCL cs := by
        by_cases hct : c.ctype = idatType <;> simp [idatConcatCL, List.filter_cons, hct]
      have hfilter : (c :: cs).filter (fun c => c.ctype ≠ idatType) =
          (if c.ctype = idatType then [] else [c]) ++
            cs.filter (fun c => c.ctype ≠ idatType) := by
        by_cases hct : c.ctype = idatType <;> simp [List.filter_cons, hct]
      by_cases hct : c.ctype = idatType
      · rw [if_pos hct]
        rw [wire_data c wfc.1 wfc.2.2.1 _]
        rw [ih f _ _ (fun x hx => hwf x (List.mem_cons_of_mem c hx)) (by simp at hf ⊢; omega)]
        rw [hconcat, hfilter, if_pos hct, if_pos hct]
        simp
      · rw [if_neg hct]
        rw [wire_take c wfc.1 wfc.2.2.1 _]
        rw [ih f _ _ (fun x hx => hwf x (List.mem_cons_of_mem c hx)) (by simp at hf ⊢; omega)]
        rw [hconcat, hfilter, if_neg hct, if_neg hct]
        simp [serChunks_cons]

theorem combine_pngOf (cs : List RChunk) (crc : Nat)
    (hwf : ∀ c ∈ cs, WFChunk c) :
    rpng_chunk_combine_image_data_from_memory (pngOf cs crc) =
      (some (png_signature ++ serChunks (cs.filter (fun c => c.ctype ≠ idatType)) ++
        storeU32LE (swap_endian (idatConcatCL cs).length) ++ idatType ++ idatConcatCL cs ++
        storeU32LE (swap_endian (compute_crc32 (idatType ++ idatConcatCL cs))) ++
        chunkWireBytes (iendChunk crc)),
       (png_signature ++ serChunks (cs.filter (fun c => c.ctype ≠ idatType)) ++
        storeU32LE (swap_endian (idatConcatCL cs).length) ++ idatType ++ idatConcatCL cs ++
        storeU32LE (swap_endian (compute_crc32 (idatType ++ idatConcatCL cs))) ++
        chunkWireBytes (iendChunk crc)).length) := by
  simp only [rpng_chunk_combine_image_data_from_memory]
  conv_lhs => rw [pngOf, List.append_assoc]
  rw [List.take_left' png_signature_length]
  rw [if_pos rfl]
  rw [List.drop_left' png_signature_length]
  have h1 := length_le_serChunks cs
  rw [combineGo_ser cs crc _ [] [] hwf (by simp only [List.length_append]; omega)]
  rw [iendW_take_12]
  simp

theorem splitPieces_eq_piecesCL :
    ∀ fuel (remain : Bytes) (ss : Nat), 1 ≤ ss → remain.length < fuel →
    splitPieces fuel remain ss = serChunks (piecesCL fuel remain ss) := by
  intro fuel
  induction fuel with
  | zero => intro remain ss _ h; omega
  | succ f ih =>
    intro remain ss hss h
    unfold splitPieces piecesCL
    by_cases hgt : remain.length > ss
    · rw [if_pos hgt, if_pos hgt]
      rw [serChunks_cons]
      rw [ih (remain.drop ss) ss hss (by simp; omega)]
      simp [chunkWireBytes]
    · rw [if_neg hgt, if_neg hgt]
      simp [serChunks, chunkWireBytes]

theorem splitGo_ser (cs : List RChunk) (ss crc : Nat) (hss : 1 ≤ ss) :
    ∀ fuel out, (∀ c ∈ cs, WFChunk c) → cs.length < fuel →
    splitGo fuel (serChunks cs ++ chunkWireBytes (iendChunk crc)) ss out =
      (out ++ serChunks (splitCL cs ss), chunkWireBytes (iendChunk crc)) := by
  induction cs with
  | nil =>
    intro fuel out _ hf
    cases fuel with
    | zero => omega
    | succ f =>
      rw [serChunks_nil, List.nil_append]
      unfold splitGo
      rw [← List.append_nil (chunkWireBytes (iendChunk crc)), if_pos (wire_iend_slice crc [])]
      simp [serChunks, splitCL]
  | cons c cs ih =>
    intro fuel out hwf hf
    cases fuel with
    | zero => simp at hf
    | succ f =>
      have wfc := hwf c (List.mem_cons_self c cs)
      rw [serChunks_cons, List.append_assoc]
      unfold splitGo
      simp only []
      rw [if_neg (by rw [wire_slice_type c wfc.1 _]; exact wfc.2.1)]
      rw [wire_head_size c (by have := wfc.2.2.2.1; omega) _]
      rw [wire_slice_type c wfc.1 _]
      rw [wire_drop c wfc.1 wfc.2.2.1 _]
      rw [ih f _ (fun x hx => hwf x (List.mem_cons_of_mem c hx)) (by simp at hf ⊢; omega)]
      have hsplit : splitCL (c :: cs) ss =
          (if c.ctype = idatType ∧ c.clength > ss then piecesCL (c.clength + 1) c.cdata ss
           else [c]) ++ splitCL cs ss := by
        simp [splitCL]
      rw [hsplit, serChunks_append]
      by_cases hct : c.ctype = idatType ∧ c.clength > ss
      · rw [if_pos hct, if_pos hct]
        rw [wire_data c wfc.1 wfc.2.2.1 _]
        rw [splitPieces_eq_piecesCL (c.clength + 1) c.cdata ss hss
          (by rw [← wfc.2.2.1]; omega)]
        simp
      · rw [if_neg hct, if_neg hct]
        rw [wire_take c wfc.1 wfc.2.2.1 _]
        have : serChunks [c] = chunkWireBytes c := by simp [serChunks]
        rw [this]
        simp

theorem split_pngOf (cs : List RChunk) (ss crc : Nat) (hss : 1 ≤ ss)
    (hwf : ∀ c ∈ cs, WFChunk c) :
    rpng_chunk_split_image_data_from_memory (pngOf cs crc) ss =
      (some (pngOf (splitCL cs ss) crc), (pngOf (splitCL cs ss) crc).length) := by
  simp only [rpng_chunk_split_image_data_from_memory]
  conv_lhs => rw [pngOf, List.append_assoc]
  rw [List.take_left' png_signature_length]
  rw [if_pos rfl]
  rw [List.drop_left' png_signature_length]
  have h1 := length_le_serChunks cs
  rw [splitGo_ser cs ss crc hss _ png_signature hwf (by simp only [List.length_append]; omega)]
  rw [iendW_take_12]
  rw [pngOf, List.append_assoc]

theorem piecesCL_all_idat :
    ∀ fuel remain ss c, c ∈ piecesCL fuel remain ss → c.ctype = idatType := by
  intro fuel
  induction fuel with
  | zero =>
    intro remain ss c hc
    simp [piecesCL] at hc
    rw [hc]
  | succ f ih =>
    intro remain ss c hc
    unfold piecesCL at hc
    by_cases hgt : remain.length > ss
    · rw [if_pos hgt] at hc
      rcases List.mem_cons.mp hc with h | h
      · rw [h]
      · exact ih _ _ _ h
    · rw [if_neg hgt] at hc
      simp at hc
      rw [hc]

theorem idatType_length4 : (idatType : Bytes).length = 4 := by decide

theorem idatType_ne_iendType : idatType ≠ iendType := by decide

theorem piecesCL_wf :
    ∀ fuel remain ss c, remain.length < 2^31 → c ∈ piecesCL fuel remain ss →
      WFChunk c := by
  intro fuel
  induction fuel with
  | zero =>
    intro remain ss c hlt hc
    simp [piecesCL] at hc
    rw [hc]
    exact ⟨idatType_length4, idatType_ne_iendType, rfl, hlt, compute_crc32_lt _⟩
  | succ f ih =>
    intro remain ss c hlt hc
    unfold piecesCL at hc
    by_cases hgt : remain.length > ss
    · rw [if_pos hgt] at hc
      rcases List.mem_cons.mp hc with h | h
      · rw [h]
        refine ⟨idatType_length4, idatType_ne_iendType, ?_, ?_, compute_crc32_lt _⟩
        · show ss = (remain.take ss).length
          rw [List.length_take]
          omega
        · show ss < 2^31
          omega
      · exact ih _ _ _ (by simp; omega) h
    · rw [if_neg hgt] at hc
      simp at hc
      rw [hc]
      exact ⟨idatType_length4, idatType_ne_iendType, rfl, hlt, compute_crc32_lt _⟩

theorem idatConcatCL_append (a b : List RChunk) :
    idatConcatCL (a ++ b) = idatConcatCL a ++ idatConcatCL b := by
  simp [idatConcatCL]

theorem idatConcatCL_piecesCL :
    ∀ fuel remain ss, idatConcatCL (piecesCL fuel remain ss) = remain := by
  intro fuel
  induction fuel with
  | zero => intro remain ss; simp [piecesCL, idatConcatCL]
  | succ f ih =>
    intro remain ss
    unfold piecesCL
    by_cases hgt : remain.length > ss
    · rw [if_pos hgt]
      have : idatConcatCL
          ({ clength := ss, ctype := idatType, cdata := remain.take ss,
             ccrc := compute_crc32 (idatType ++ remain.take ss) } ::
            piecesCL f (remain.drop ss) ss) =
          remain.take ss ++ idatConcatCL (piecesCL f (remain.drop ss) ss) := by
        simp [idatConcatCL]
      rw [this, ih]
      exact List.take_append_drop ss remain
    · rw [if_neg hgt]
      simp [idatConcatCL]

theorem idatConcatCL_splitCL (cs : List RChunk) (ss : Nat) :
    idatConcatCL (splitCL cs ss) = idatConcatCL cs := by
  induction cs with
  | nil => simp [splitCL, idatConcatCL]
  | cons c cs ih =>
    have hsplit : splitCL (c :: cs) ss =
        (if c.ctype = idatType ∧ c.clength > ss then piecesCL (c.clength + 1) c.cdata ss
         else [c]) ++ splitCL cs ss := by
      simp [splitCL]
    rw [hsplit, idatConcatCL_append, ih]
    by_cases hct : c.ctype = idatType ∧ c.clength > ss
    · rw [if_pos hct, idatConcatCL_piecesCL]
      have : idatConcatCL (c :: cs) = c.cdata ++ idatConcatCL cs := by
        simp [idatConcatCL, List.filter_cons, hct.1]
      rw [this]
    · rw [if_neg hct]
      by_cases hid : c.ctype = idatType
      · have : idatConcatCL (c :: cs) = c.cdata ++ idatConcatCL cs := by
          simp [idatConcatCL, List.filter_cons, hid]
        rw [this]
        simp [idatConcatCL, List.filter_cons, hid]
      · have h1 : idatConcatCL (c :: cs) = idatConcatCL cs := by
          simp [idatConcatCL, List.filter_cons, hid]
        have h2 : idatConcatCL [c] = [] := by
          simp [idatConcatCL, List.filter_cons, hid]
        rw [h1, h2, List.nil_append]

theorem filter_nonidat_splitCL (cs : List RChunk) (ss : Nat) :
    (splitCL cs ss).filter (fun c => c.ctype ≠ idatType) =
      cs.filter (fun c => c.ctype ≠ idatType) := by
  induction cs with
  | nil => simp [splitCL]
  | cons c cs ih =>
    have hsplit : splitCL (c :: cs) ss =
        (if c.ctype = idatType ∧ c.clength > ss then piecesCL (c.clength + 1) c.cdata ss
         else [c]) ++ splitCL cs ss := by
      simp [splitCL]
    rw [hsplit, List.filter_append, ih, List.filter_cons]
    by_cases hct : c.ctype = idatType ∧ c.clength > ss
    · rw [if_pos hct]
      have hpieces : (piecesCL (c.clength + 1) c.cdata ss).filter
          (fun c => c.ctype ≠ idatType) = [] := by
        apply List.filter_eq_nil_iff.mpr
        intro x hx
        simp [piecesCL_all_idat _ _ _ _ hx]
      rw [hpieces, List.nil_append]
      simp [hct.1]
    · rw [if_neg hct]
      by_cases hid : c.ctype = idatType
      · simp [List.filter_cons, hid]
      · simp [List.filter_cons, hid]

theorem splitCL_wf (cs : List RChunk) (ss : Nat) (hwf : ∀ c ∈ cs, WFChunk c) :
    ∀ c ∈ splitCL cs ss, WFChunk c := by
  induction cs with
  | nil => simp [splitCL]
  | cons c cs ih =>
    have hsplit : splitCL (c :: cs) ss =
        (if c.ctype = idatType ∧ c.clength > ss then piecesCL (c.clength + 1) c.cdata ss
         else [c]) ++ splitCL cs ss := by
      simp [splitCL]
    intro x hx
    rw [hsplit] at hx
    rcases List.mem_append.mp hx with h | h
    · have wfc := hwf c (List.mem_cons_self c cs)
      by_cases hct : c.ctype = idatType ∧ c.clength > ss
      · rw [if_pos hct] at h
        exact piecesCL_wf _ _ _ _ (by rw [← wfc.2.2.1]; exact wfc.2.2.2.1) h
      · rw [if_neg hct] at h
        simp at h
        rw [h]
        exact wfc
    · exact ih (fun x hx => hwf x (List.mem_cons_of_mem c hx)) x h

theorem parse_iend (crc : Nat) (hcrc : crc < 2^32) :
    parseChunkAt (chunkWireBytes (iendChunk crc)) = iendChunk crc := by
  rw [← List.append_nil (chunkWireBytes (iendChunk crc))]
  exact parseChunkAt_wire (iendChunk crc) rfl rfl (by norm_num [iendChunk]) hcrc []

theorem readAllGo_ser (cs : List RChunk) (crc : Nat) :
    ∀ fuel acc, (∀ c ∈ cs, WFChunk c) → acc.length + cs.length ≤ 61 →
    cs.length < fuel →
    readAllGo fuel (serChunks cs ++ chunkWireBytes (iendChunk crc)) acc =
      (acc ++ cs, chunkWireBytes (iendChunk crc)) := by
  induction cs with
  | nil =>
    intro fuel acc _ _ hf
    cases fuel with
    | zero => omega
    | succ f =>
      rw [serChunks_nil, List.nil_append]
      unfold readAllGo
      rw [← List.append_nil (chunkWireBytes (iendChunk crc)), if_pos (wire_iend_slice crc [])]
      simp
  | cons c cs ih =>
    intro fuel acc hwf hlen hf
    cases fuel with
    | zero => simp at hf
    | succ f =>
      have wfc := hwf c (List.mem_cons_self c cs)
      rw [serChunks_cons, List.append_assoc]
      unfold readAllGo
      simp only []
      rw [if_neg (by rw [wire_slice_type c wfc.1 _]; exact wfc.2.1)]
      rw [wire_head_size c (by have := wfc.2.2.2.1; omega) _]
      rw [parseChunkAt_wire c wfc.1 wfc.2.2.1 (by have := wfc.2.2.2.1; omega) wfc.2.2.2.2 _]
      rw [wire_drop c wfc.1 wfc.2.2.1 _]
      rw [if_neg (by simp [RPNG_MAX_CHUNKS_COUNT]; simp at hlen; omega)]
      rw [ih f _ (fun x hx => hwf x (List.mem_cons_of_mem c hx))
        (by simp at hlen ⊢; omega) (by simp at hf ⊢; omega)]
      simp

theorem readAll_pngOf (cs : List RChunk) (crc : Nat)
    (hwf : ∀ c ∈ cs, WFChunk c) (hn : cs.length ≤ 61) (hcrc : crc < 2^32) :
    rpng_chunk_read_all_from_memory (pngOf cs crc) = some (cs ++ [iendChunk crc]) := by
  simp only [rpng_chunk_read_all_from_memory]
  conv_lhs => rw [pngOf, List.append_assoc]
  rw [List.take_left' png_signature_length]
  rw [if_pos rfl]
  rw [List.drop_left' png_signature_length]
  have h1 := length_le_serChunks cs
  rw [readAllGo_ser cs crc _ [] hwf (by simpa using hn)
    (by simp only [List.length_append]; omega)]
  rw [parse_iend crc hcrc]
  simp

theorem readAllGo_break (cs : List RChunk) (R : Bytes) :
    ∀ fuel acc, (∀ c ∈ cs, WFChunk c) → acc.length < 62 →
    62 ≤ acc.length + cs.length → 62 - acc.length ≤ fuel →
    readAllGo fuel (serChunks cs ++ R) acc =
      (acc ++ cs.take (62 - acc.length),
       serChunks (cs.drop (62 - acc.length)) ++ R) := by
  induction cs with
  | nil =>
    intro fuel acc _ h1 h2 _
    simp at h2
    omega
  | cons c cs ih =>
    intro fuel acc hwf h1 h2 h3
    cases fuel with
    | zero => omega
    | succ f =>
      have wfc := hwf c (List.mem_cons_self c cs)
      rw [serChunks_cons, List.append_assoc]
      unfold readAllGo
      simp only []
      rw [if_neg (by rw [wire_slice_type c wfc.1 _]; exact wfc.2.1)]
      rw [wire_head_size c (by have := wfc.2.2.2.1; omega) _]
      rw [parseChunkAt_wire c wfc.1 wfc.2.2.1 (by have := wfc.2.2.2.1; omega) wfc.2.2.2.2 _]
      rw [wire_drop c wfc.1 wfc.2.2.1 _]
      by_cases hbreak : 62 ≤ acc.length + 1
      · rw [if_pos (by simp [RPNG_MAX_CHUNKS_COUNT]; omega)]
        have hn : 62 - acc.length = 1 := by omega
        rw [hn]
        simp
      · rw [if_neg (by simp [RPNG_MAX_CHUNKS_COUNT]; omega)]
        rw [ih f (acc ++ [c]) (fun x hx => hwf x (List.mem_cons_of_mem c hx))
          (by simp; omega) (by simp at h2 ⊢; omega) (by simp; omega)]
        have hn : 62 - acc.length = (62 - (acc ++ [c]).length) + 1 := by simp; omega
        rw [hn]
        simp [List.take_succ_cons, List.drop_succ_cons]

theorem withComputedCrc_wf (k : RChunk) (hk : WFChunk k) :
    WFChunk (withComputedCrc k) :=
  ⟨hk.1, hk.2.1, hk.2.2.1, hk.2.2.2.1, compute_crc32_lt _⟩

theorem insertAfterIhdrCL_cons (c : RChunk) (cs : List RChunk) (k : RChunk) :
    insertAfterIhdrCL (c :: cs) k =
      (if c.ctype = ihdrType then [c, withComputedCrc k] else [c]) ++
        insertAfterIhdrCL cs k := by
  simp [insertAfterIhdrCL]

theorem insertAfterIhdrCL_length (cs : List RChunk) (k : RChunk) :
    (insertAfterIhdrCL cs k).length =
      cs.length + cs.countP (fun c => c.ctype = ihdrType) := by
  induction cs with
  | nil => simp [insertAfterIhdrCL]
  | cons c cs ih =>
    rw [insertAfterIhdrCL_cons]
    by_cases hct : c.ctype = ihdrType
    · rw [if_pos hct]
      simp only [List.length_append, List.length_cons, ih, List.countP_cons]
      simp [hct]
      omega
    · rw [if_neg hct]
      simp only [List.length_append, List.length_cons, ih, List.countP_cons]
      simp [hct]
      omega

theorem insertAfterIhdrCL_wf (cs : List RChunk) (k : RChunk)
    (hwf : ∀ c ∈ cs, WFChunk c) (hk : WFChunk k) :
    ∀ x ∈ insertAfterIhdrCL cs k, WFChunk x := by
  induction cs with
  | nil => simp [insertAfterIhdrCL]
  | cons c cs ih =>
    intro x hx
    rw [insertAfterIhdrCL_cons] at hx
    rcases List.mem_append.mp hx with h | h
    · have wfc := hwf c (List.mem_cons_self c cs)
      by_cases hct : c.ctype = ihdrType
      · rw [if_pos hct] at h
        rcases List.mem_cons.mp h with h | h
        · rw [h]; exact wfc
        · simp at h
          rw [h]
          exact withComputedCrc_wf k hk
      · rw [if_neg hct] at h
        simp at h
        rw [h]
        exact wfc
    · exact ih (fun x hx => hwf x (List.mem_cons_of_mem c hx)) x h

theorem withComputedCrc_ctype (k : RChunk) : (withComputedCrc k).ctype = k.ctype := rfl

theorem filter_insertAfterIhdrCL (cs : List RChunk) (k : RChunk)
    (hfresh : ∀ c ∈ cs, c.ctype ≠ k.ctype) :
    (insertAfterIhdrCL cs k).filter (fun c => c.ctype ≠ k.ctype) = cs := by
  induction cs with
  | nil => simp [insertAfterIhdrCL]
  | cons c cs ih =>
    rw [insertAfterIhdrCL_cons, List.filter_append,
      ih (fun x hx => hfresh x (List.mem_cons_of_mem c hx))]
    have hc := hfresh c (List.mem_cons_self c cs)
    by_cases hct : c.ctype = ihdrType
    · rw [if_pos hct]
      simp [List.filter_cons, hc, withComputedCrc_ctype]
    · rw [if_neg hct]
      simp [List.filter_cons, hc]

/-- Claim C10: an unsupported bit depth or channel count makes
rpng_save_image_to_memory return NULL without writing through output_size
(modelled as the pair (none, none)). -/
theorem c10_save_invalid_format (data : Bytes) (width height color_channels bit_depth : Nat)
    (hbad : (bit_depth ≠ 8 ∧ bit_depth ≠ 16) ∨
      (color_channels ≠ 1 ∧ color_channels ≠ 2 ∧ color_channels ≠ 3 ∧ color_channels ≠ 4)) :
    rpng_save_image_to_memory data width height color_channels bit_depth = (none, none) := by
  unfold rpng_save_image_to_memory
  by_cases hbd : bit_depth ≠ 8 ∧ bit_depth ≠ 16
  · rw [if_pos hbd]
  · rw [if_neg hbd]
    rcases hbad with h | h
    · exact absurd h hbd
    · rw [if_neg h.1, if_neg h.2.1, if_neg h.2.2.1, if_neg h.2.2.2]
      rw [if_pos rfl]

theorem c10_save_invalid_format_witness :
    rpng_save_image_to_memory [] 1 1 5 8 = (none, none) :=
  c10_save_invalid_format [] 1 1 5 8 (Or.inr (by decide))

/-- Claim C9: the chunk built by rpng_chunk_write_chroma carries the pHYs
FOURCC, not the cHRM one the specification prescribes. -/
theorem c9_chroma_fourcc (wx wy rx ry gx gy bx bb : Nat) :
    (rpng_chunk_write_chroma_chunk wx wy rx ry gx gy bx bb).ctype = physType ∧
      physType ≠ chrmType :=
  ⟨rfl, by decide⟩

/-- Claim C8: rpng_paeth_predictor agrees with the reference Paeth predictor
computed in exact integer arithmetic on all byte-valued inputs. -/
theorem c8_paeth_exact (a b c : Nat) (ha : a < 256) (hb : b < 256) (hc : c < 256) :
    rpng_paeth_predictor a b c = paethRefSpec a b c := by
  simp only [rpng_paeth_predictor, paethRefSpec]
  split_ifs <;> omega

theorem c8_paeth_exact_witness :
    3 < 256 ∧ rpng_paeth_predictor 3 250 7 = paethRefSpec 3 250 7 :=
  ⟨by decide, c8_paeth_exact 3 250 7 (by decide) (by decide) (by decide)⟩

theorem drop_last12 (X Y : Bytes) (hY : Y.length = 12) :
    (X ++ Y).drop ((X ++ Y).length - 12) = Y := by
  have h : (X ++ Y).length - 12 = X.length := by
    simp [hY]
  rw [h, List.drop_left]

theorem save_output_iend_crc (data : Bytes) (width height color_channels bit_depth : Nat)
    (out : Bytes)
    (hout : (rpng_save_image_to_memory data width height color_channels bit_depth).1 = some out) :
    out.drop (out.length - 12) = chunkWireBytes (iendChunk 0xAE426082) := by
  simp only [rpng_save_image_to_memory] at hout
  split_ifs at hout <;> simp only [Option.some.injEq] at hout <;>
    (subst hout
     rw [← List.append_assoc, ← List.append_assoc]
     rw [drop_last12 _ _ (by decide)]
     decide)

/-- Claim C3 is refuted by this theorem: on any stream laid out as
rpng_save_image_to_memory lays out its output (well-formed chunks followed by
an IEND whose stored CRC field is the constant 0xAE426082 the encoder writes),
rpng_chunk_check_all_valid returns false, because it compares the stored CRC
against the byte-swapped recomputation, and for the IEND chunk
swap(crc32("IEND")) differs from crc32("IEND") = 0xAE426082. -/
theorem c3_check_all_valid_saved (cs : List RChunk)
    (hwf : ∀ c ∈ cs, WFChunk c) (hn : cs.length ≤ 61) :
    rpng_chunk_check_all_valid (pngOf cs 0xAE426082) = false := by
  unfold rpng_chunk_check_all_valid
  rw [readAll_pngOf cs 0xAE426082 hwf hn (by norm_num)]
  show (cs ++ [iendChunk 0xAE426082]).all
    (fun c => swap_endian (compute_crc32 (c.ctype ++ c.cdata)) == c.ccrc) = false
  rw [List.all_append]
  have hend : ([iendChunk 0xAE426082] : List RChunk).all
      (fun c => swap_endian (compute_crc32 (c.ctype ++ c.cdata)) == c.ccrc) = false := by
    decide
  rw [hend, Bool.and_false]

theorem c3_check_all_valid_saved_witness :
    rpng_chunk_check_all_valid (pngOf [] 0xAE426082) = false :=
  c3_check_all_valid_saved [] (by simp) (by decide)

/-- Claim C7 (amended): rpng_chunk_read_all_from_memory returns every chunk
with its exact fields, IEND included, only for streams of at most 62 non-IEND
chunks; the break fires at 62 collected chunks, two short of
RPNG_MAX_CHUNKS_COUNT = 64 (here stated for up to 61 chunks before IEND,
where the loop finishes normally). -/
theorem c7_read_all_complete (cs : List RChunk) (crc : Nat)
    (hwf : ∀ c ∈ cs, WFChunk c) (hn : cs.length ≤ 61) (hcrc : crc < 2^32) :
    rpng_chunk_read_all_from_memory (pngOf cs crc) = some (cs ++ [iendChunk crc]) :=
  readAll_pngOf cs crc hwf hn hcrc

theorem c7_read_all_complete_witness :
    rpng_chunk_read_all_from_memory (pngOf [testChunk] 3) =
      some ([testChunk] ++ [iendChunk 3]) :=
  c7_read_all_complete [testChunk] 3 (by decide) (by decide) (by decide)

theorem c7_counterexample :
    rpng_chunk_count_from_memory (pngOf (List.replicate 63 testChunk) 0) = 64 ∧
    rpng_chunk_read_all_from_memory (pngOf (List.replicate 63 testChunk) 0) =
      some (List.replicate 63 testChunk) ∧
    List.replicate 63 testChunk ≠
      List.replicate 63 testChunk ++ [iendChunk 0] := by
  have hwf : ∀ c ∈ List.replicate 63 testChunk, WFChunk c := by
    intro c hc
    rw [List.eq_of_mem_replicate hc]
    decide
  refine ⟨?_, ?_, ?_⟩
  · rw [count_pngOf _ 0 hwf]
    simp
  · simp only [rpng_chunk_read_all_from_memory]
    conv_lhs => rw [pngOf, List.append_assoc]
    rw [List.take_left' png_signature_length]
    rw [if_pos rfl]
    rw [List.drop_left' png_signature_length]
    have h1 := length_le_serChunks (List.replicate 63 testChunk)
    rw [readAllGo_break (List.replicate 63 testChunk) _ _ [] hwf (by decide)
      (by decide) (by simp only [List.length_replicate] at h1
                      simp only [List.length_append, List.length_nil]
                      omega)]
    simp only [List.length_nil, Nat.sub_zero, List.nil_append]
    rw [List.take_replicate, List.drop_replicate]
    norm_num
    rw [serChunks_cons, serChunks_nil, List.append_nil]
    rw [parseChunkAt_wire testChunk (by decide) (by decide) (by decide) (by decide) _]
    have : (62 : Nat) + 1 = 63 := by norm_num
    rw [← List.replicate_succ' 62 testChunk]
  · intro h
    have := congrArg List.length h
    simp at this

/-- Claim C5 (amended): inserting a chunk after the single IHDR adds exactly
one chunk to the count, and removing by the inserted chunk's type restores
the original count only when the stream held no chunk of that type, because
rpng_chunk_remove_from_memory omits every matching chunk, not just the
first. -/
theorem c5_count_insert_remove (cs : List RChunk) (k : RChunk) (crc : Nat)
    (hwf : ∀ c ∈ cs, WFChunk c) (hk : WFChunk k)
    (hone : cs.countP (fun c => c.ctype = ihdrType) = 1)
    (hfresh : ∀ c ∈ cs, c.ctype ≠ k.ctype) :
    rpng_chunk_count_from_memory
        ((rpng_chunk_write_from_memory (pngOf cs crc) k).1.getD []) =
      rpng_chunk_count_from_memory (pngOf cs crc) + 1 ∧
    rpng_chunk_count_from_memory
        ((rpng_chunk_remove_from_memory
          ((rpng_chunk_write_from_memory (pngOf cs crc) k).1.getD []) k.ctype).1.getD []) =
      rpng_chunk_count_from_memory (pngOf cs crc) := by
  have hins_wf := insertAfterIhdrCL_wf cs k hwf hk
  rw [write_pngOf cs k crc hwf]
  simp only [Option.getD_some]
  constructor
  · rw [count_pngOf _ crc hins_wf, count_pngOf cs crc hwf,
      insertAfterIhdrCL_length, hone]
  · rw [remove_pngOf _ k.ctype crc hins_wf]
    simp only [Option.getD_some]
    rw [filter_insertAfterIhdrCL cs k hfresh, count_pngOf cs crc hwf]

theorem c5_count_insert_remove_witness :
    rpng_chunk_count_from_memory
        ((rpng_chunk_write_from_memory (pngOf [testIhdr0] 0) testChunk).1.getD []) =
      rpng_chunk_count_from_memory (pngOf [testIhdr0] 0) + 1 ∧
    rpng_chunk_count_from_memory
        ((rpng_chunk_remove_from_memory
          ((rpng_chunk_write_from_memory (pngOf [testIhdr0] 0) testChunk).1.getD [])
          testChunk.ctype).1.getD []) =
      rpng_chunk_count_from_memory (pngOf [testIhdr0] 0) :=
  c5_count_insert_remove [testIhdr0] testChunk 0 (by decide) (by decide) (by decide)
    (by decide)

theorem c5_counterexample :
    rpng_chunk_count_from_memory (pngOf [testIhdr0, testChunk] 0) = 3 ∧
    rpng_chunk_count_from_memory
        ((rpng_chunk_write_from_memory (pngOf [testIhdr0, testChunk] 0) testChunk).1.getD [])
      = 4 ∧
    rpng_chunk_count_from_memory
        ((rpng_chunk_remove_from_memory
          ((rpng_chunk_write_from_memory (pngOf [testIhdr0, testChunk] 0) testChunk).1.getD [])
          testChunk.ctype).1.getD [])
      = 2 := by
  have hwf : ∀ c ∈ [testIhdr0, testChunk], WFChunk c := by decide
  have hins_wf := insertAfterIhdrCL_wf [testIhdr0, testChunk] testChunk hwf (by decide)
  refine ⟨?_, ?_, ?_⟩
  · rw [count_pngOf _ 0 hwf]
    decide
  · rw [write_pngOf _ testChunk 0 hwf]
    simp only [Option.getD_some]
    rw [count_pngOf _ 0 hins_wf, insertAfterIhdrCL_length]
    decide
  · rw [write_pngOf _ testChunk 0 hwf]
    simp only [Option.getD_some]
    rw [remove_pngOf _ testChunk.ctype 0 hins_wf]
    simp only [Option.getD_some]
    have hfilter : (insertAfterIhdrCL [testIhdr0, testChunk] testChunk).filter
        (fun c => c.ctype ≠ testChunk.ctype) = [testIhdr0] := by decide
    rw [hfilter, count_pngOf _ 0 (by decide)]
    decide

/-- Claim C6: combining the IDAT payloads of a split stream yields byte for
byte the same buffer as combining the original stream, for every piece size
of at least one byte. -/
theorem c6_combine_split_idat (cs : List RChunk) (ss crc : Nat) (hss : 1 ≤ ss)
    (hwf : ∀ c ∈ cs, WFChunk c) :
    rpng_chunk_combine_image_data_from_memory
        ((rpng_chunk_split_image_data_from_memory (pngOf cs crc) ss).1.getD []) =
      rpng_chunk_combine_image_data_from_memory (pngOf cs crc) := by
  rw [split_pngOf cs ss crc hss hwf]
  simp only [Option.getD_some]
  rw [combine_pngOf (splitCL cs ss) crc (splitCL_wf cs ss hwf),
    combine_pngOf cs crc hwf,
    filter_nonidat_splitCL, idatConcatCL_splitCL]

theorem c6_combine_split_idat_witness :
    rpng_chunk_combine_image_data_from_memory
        ((rpng_chunk_split_image_data_from_memory (pngOf [testIdat] 0) 1).1.getD []) =
      rpng_chunk_combine_image_data_from_memory (pngOf [testIdat] 0) :=
  c6_combine_split_idat [testIdat] 1 0 (by decide) (by decide)

theorem map_range5_getD (g : Nat → Nat) (f : Nat) (hf : f < 5) :
    ((List.range 5).map g).getD f 0 = g f := by
  interval_cases f <;> rfl

theorem rowSumsFold_length (data : Bytes) (ps sl y : Nat) :
    ∀ (n : Nat) (sums : List Nat), sums.length = 5 →
    ((List.range n).foldl
      (fun sums p => (List.range 5).map fun f =>
        sums.getD f 0 + absSignedByte (filterOutInt data ps sl y p f 0)) sums).length = 5 := by
  intro n
  cases n with
  | zero => intro sums h; simpa using h
  | succ m =>
    intro sums h
    rw [show List.range (m+1) = List.range m ++ [m] from List.range_succ m,
      List.foldl_append, List.foldl_cons, List.foldl_nil]
    simp

theorem rowSumsFold_getD (data : Bytes) (ps sl y : Nat) :
    ∀ (n : Nat) (sums : List Nat) (f : Nat), sums.length = 5 → f < 5 →
    ((List.range n).foldl
      (fun sums p => (List.range 5).map fun f =>
        sums.getD f 0 + absSignedByte (filterOutInt data ps sl y p f 0)) sums).getD f 0 =
      sums.getD f 0 +
        ((List.range n).map (fun p => absSignedByte (filterOutInt data ps sl y p f 0))).sum := by
  intro n
  induction n with
  | zero => intro sums f h hf; simp
  | succ m ih =>
    intro sums f h hf
    rw [show List.range (m+1) = List.range m ++ [m] from List.range_succ m,
      List.foldl_append, List.foldl_cons, List.foldl_nil,
      List.map_append, List.sum_append]
    rw [map_range5_getD _ f hf]
    rw [ih sums f h hf]
    simp [Nat.add_assoc]

theorem filterRowSums_length (data : Bytes) (ps sl y : Nat) (sums : List Nat)
    (h : sums.length = 5) : (filterRowSums data ps sl y sums).length = 5 :=
  rowSumsFold_length data ps sl y sl sums h

theorem filterRowSums_getD (data : Bytes) (ps sl y : Nat) (sums : List Nat) (f : Nat)
    (h : sums.length = 5) (hf : f < 5) :
    (filterRowSums data ps sl y sums).getD f 0 =
      sums.getD f 0 + rowFilterSumSpec data ps sl y f :=
  rowSumsFold_getD data ps sl y sl sums f h hf

theorem argminFilter5_congr (g g' : Nat → Nat) (h : ∀ f, f < 5 → g f = g' f) :
    argminFilter5 g = argminFilter5 g' := by
  unfold argminFilter5
  rw [h 0 (by omega), h 1 (by omega), h 2 (by omega), h 3 (by omega), h 4 (by omega)]

theorem bestFilterOf_eq_argmin (s : List Nat) :
    bestFilterOf s = argminFilter5 (fun f => s.getD f 0) := by
  have hdrop : (List.range 5).drop 1 = [1, 2, 3, 4] := rfl
  simp only [bestFilterOf, argminFilter5, hdrop, List.foldl_cons, List.foldl_nil,
    apply_ite Prod.fst, apply_ite Prod.snd]
  split_ifs <;> omega

theorem filteredRowBytes_length (data : Bytes) (ps sl y flt : Nat) :
    (filteredRowBytes data ps sl y flt).length = sl := by
  simp [filteredRowBytes]

theorem filterImageAux (data : Bytes) (ps sl : Nat) : ∀ n : Nat,
    ((List.range n).foldl
      (fun acc y =>
        let sums := filterRowSums data ps sl y acc.2
        let best := bestFilterOf sums
        (acc.1 ++ best :: filteredRowBytes data ps sl y best, sums))
      (([] : Bytes), [0, 0, 0, 0, 0])).1.length = (1+sl)*n ∧
    ((List.range n).foldl
      (fun acc y =>
        let sums := filterRowSums data ps sl y acc.2
        let best := bestFilterOf sums
        (acc.1 ++ best :: filteredRowBytes data ps sl y best, sums))
      (([] : Bytes), [0, 0, 0, 0, 0])).2.length = 5 ∧
    (∀ f, f < 5 →
      ((List.range n).foldl
        (fun acc y =>
          let sums := filterRowSums data ps sl y acc.2
          let best := bestFilterOf sums
          (acc.1 ++ best :: filteredRowBytes data ps sl y best, sums))
        (([] : Bytes), [0, 0, 0, 0, 0])).2.getD f 0 =
      ((List.range n).map (fun r => rowFilterSumSpec data ps sl r f)).sum) ∧
    (∀ y, y < n →
      ((List.range n).foldl
        (fun acc y =>
          let sums := filterRowSums data ps sl y acc.2
          let best := bestFilterOf sums
          (acc.1 ++ best :: filteredRowBytes data ps sl y best, sums))
        (([] : Bytes), [0, 0, 0, 0, 0])).1.getD ((1+sl)*y) 0 =
      argminFilter5 (fun f => cumFilterSumSpec data ps sl y f)) := by
  intro n
  induction n with
  | zero =>
    refine ⟨by simp, by simp, ?_, ?_⟩
    · intro f hf
      interval_cases f <;> simp
    · intro y hy
      omega
  | succ m ih =>
    obtain ⟨ih1, ih2, ih3, ih4⟩ := ih
    rw [show List.range (m+1) = List.range m ++ [m] from List.range_succ m,
      List.foldl_append, List.foldl_cons, List.foldl_nil]
    simp only []
    refine ⟨?_, ?_, ?_, ?_⟩
    · simp only [List.length_append, List.length_cons]
      rw [filteredRowBytes_length, ih1, Nat.mul_succ]
      omega
    · exact filterRowSums_length data ps sl m _ ih2
    · intro f hf
      rw [filterRowSums_getD data ps sl m _ f ih2 hf, ih3 f hf,
        List.map_append, List.sum_append]
      simp
    · intro y hy
      by_cases hym : y < m
      · have h1 : (1+sl)*(y+1) ≤ (1+sl)*m := Nat.mul_le_mul_left _ (by omega)
        have hlt : (1+sl)*y <
            ((List.range m).foldl
              (fun acc y =>
                let sums := filterRowSums data ps sl y acc.2
                let best := bestFilterOf sums
                (acc.1 ++ best :: filteredRowBytes data ps sl y best, sums))
              (([] : Bytes), [0, 0, 0, 0, 0])).1.length := by
          rw [ih1]
          rw [Nat.mul_succ] at h1
          omega
        rw [List.getD_append _ _ _ _ hlt]
        exact ih4 y hym
      · have hym' : y = m := by omega
        subst hym'
        have hge :
            ((List.range y).foldl
              (fun acc y =>
                let sums := filterRowSums data ps sl y acc.2
                let best := bestFilterOf sums
                (acc.1 ++ best :: filteredRowBytes data ps sl y best, sums))
              (([] : Bytes), [0, 0, 0, 0, 0])).1.length ≤ (1+sl)*y := by
          rw [ih1]
        rw [List.getD_append_right _ _ _ _ hge]
        rw [ih1, Nat.sub_self]
        simp only [List.getD_cons_zero]
        rw [bestFilterOf_eq_argmin]
        apply argminFilter5_congr
        intro f hf
        rw [filterRowSums_getD data ps sl y _ f ih2 hf, ih3 f hf]
        unfold cumFilterSumSpec
        rw [show List.range (y+1) = List.range y ++ [y] from List.range_succ y,
          List.map_append, List.sum_append]
        simp

/-- Claim C4 (amended): the filter byte the encoder emits for row y is the
lowest filter index minimizing the sums of absolute signed filtered bytes
accumulated over rows 0..y (the C sum_value array is never reset between
rows), not the per-row sums the specification describes. -/
theorem c4_emitted_filter (data : Bytes) (pixel_size scanline height y : Nat)
    (hy : y < height) :
    (filterImage data pixel_size scanline height).getD ((1+scanline)*y) 0 =
      argminFilter5 (fun f => cumFilterSumSpec data pixel_size scanline y f) := by
  unfold filterImage
  exact (filterImageAux data pixel_size scanline height).2.2.2 y hy

theorem c4_emitted_filter_witness :
    (filterImage [216, 14, 113, 224] 1 2 2).getD ((1+2)*1) 0 =
      argminFilter5 (fun f => cumFilterSumSpec [216, 14, 113, 224] 1 2 1 f) :=
  c4_emitted_filter [216, 14, 113, 224] 1 2 2 1 (by decide)

theorem c4_counterexample :
    (filterImage [216, 14, 113, 224] 1 2 2).getD 3 0 = 0 ∧
    rowFilterSumSpec [216, 14, 113, 224] 1 2 1 3 <
      rowFilterSumSpec [216, 14, 113, 224] 1 2 1 0 := by
  decide

/-- Claim C2 is refuted on the concrete split-IDAT stream splitPng1x1: the
decoder of rpng.h inflates each IDAT payload on its own and returns a zeroed
buffer here, while the specified behaviour (inflating the concatenation of
all IDAT payloads as one zlib stream) recovers the pixel 0x7F. -/
theorem c2_decoder_idat_concat :
    rpng_load_image_from_memory splitPng1x1 ≠ loadImageConcatSpec splitPng1x1 := by
  decide
